import Mathlib

/-!
Verification of the `compose-message` commit-message drafting tool against its
natural-language specification.

The development shallowly embeds the relevant parts of the Python sources:

* `commands/draft.py` — the output sanitizer `_clean_model_output`, the
  interactive review loop of `_draft_command`, and the exit-code behaviour of
  `draft_command`;
* `core/prompt.py` — `build_commit_message_prompt` with its full template
  tables;
* `core/config.py` — `load_config` over an abstract TOML document, plus the
  module's exported names and the `Config` field set;
* `commands/init.py` — the names it imports from `core.config`;
* `core/git.py` — the byte-capping logic of `get_staged_diff`.

Python strings are modelled as Lean `String` / `List Char`.  `str.strip()` is
modelled with the whitespace set below (the common Python whitespace
characters), `str.splitlines()` with the standard line-break set (including
the two-character `"\r\n"` break), and `str.lower()` with `Char.toLower`
(ASCII case mapping; all comparisons performed by the sources are against
ASCII literals).
-/

/-- Characters at which Python `str.splitlines` breaks a line
(`"\r\n"` is additionally treated as a single break). -/
def breakChar (c : Char) : Bool :=
  c = '\n' || c = '\r' || c = '\x0b' || c = '\x0c' ||
  c = '\x1c' || c = '\x1d' || c = '\x1e' || c = '\u0085' ||
  c = '\u2028' || c = '\u2029'

/-- Characters removed by Python `str.strip()` (whitespace).  Every line-break
character is whitespace. -/
def wsChar (c : Char) : Bool :=
  breakChar c || c = ' ' || c = '\t' || c = '\x1f' || c = '\u00a0' ||
  c = '\u1680' || ('\u2000' ≤ c && c ≤ '\u200a') || c = '\u202f' ||
  c = '\u205f' || c = '\u3000'

/-- `s.lstrip()` on a character list. -/
def lstripL (cs : List Char) : List Char := cs.dropWhile wsChar

/-- `s.rstrip()` on a character list. -/
def rstripL (cs : List Char) : List Char := (cs.reverse.dropWhile wsChar).reverse

/-- `s.strip()` on a character list. -/
def stripL (cs : List Char) : List Char := rstripL (lstripL cs)

/-- Python `str.strip()`. -/
def pyStrip (s : String) : String := ⟨stripL s.data⟩

/-- Python `str.lower()` (ASCII case mapping). -/
def lowerL (cs : List Char) : List Char := cs.map Char.toLower

/-- Python `str.splitlines()`: split at line-break characters, treating
`"\r\n"` as a single break; a trailing break does not produce an extra
empty line. -/
def splitlinesL : List Char → List (List Char)
  | [] => []
  | '\r' :: '\n' :: rest => [] :: splitlinesL rest
  | c :: rest =>
    if breakChar c then [] :: splitlinesL rest
    else
      match splitlinesL rest with
      | [] => [[c]]
      | l :: ls => (c :: l) :: ls

/-- Python `"\n".join(...)` on character lists. -/
def joinL : List (List Char) → List Char
  | [] => []
  | [l] => l
  | l :: l2 :: rest => l ++ '\n' :: joinL (l2 :: rest)

/-- Python substring test `needle in hay`. -/
def containsL (needle : List Char) : List Char → Bool
  | [] => needle.isEmpty
  | c :: rest => needle.isPrefixOf (c :: rest) || containsL needle rest

/-- The fixed standalone meta-commentary markers dropped by
`_clean_model_output` (draft.py line 79). -/
def metaMarkers : List (List Char) :=
  ["thinking...".data, "...done thinking.".data, "done thinking.".data]

/-- A line survives the marker filter of `_clean_model_output`:
its trimmed, lowercased content is not one of the fixed markers. -/
def keepLine (l : List Char) : Bool := !(metaMarkers.contains (lowerL (stripL l)))

/-- `"done thinking" in line.strip().lower()` (draft.py line 70). -/
def containsDone (l : List Char) : Bool :=
  containsL "done thinking".data (lowerL (stripL l))

/-- `line.strip().lower().startswith("thinking")` (draft.py line 66). -/
def startsThinking (l : List Char) : Bool :=
  "thinking".data.isPrefixOf (lowerL (stripL l))

/-- The `while` loop of draft.py lines 67-74: drop lines up to and including
the first line containing "done thinking"; if none exists, drop them all. -/
def afterDone : List (List Char) → List (List Char)
  | [] => []
  | l :: rest => if containsDone l then rest else afterDone rest

/-- The guard of draft.py line 66 applied to a text: does the first line,
trimmed and lowercased, start with "thinking"? -/
def headThinkingL (cs : List Char) : Bool :=
  match splitlinesL cs with
  | [] => false
  | l :: _ => startsThinking l

/-- `_clean_model_output` (draft.py lines 45-83) on a character list:
strip; return if empty; split into lines; if the first line starts with
"thinking", drop the leading block through the first "done thinking" line;
drop standalone marker lines; rejoin with `"\n"` and strip. -/
def cleanL (cs : List Char) : List Char :=
  if stripL cs = [] then stripL cs
  else if headThinkingL (stripL cs) then
    stripL (joinL (List.filter keepLine (afterDone (splitlinesL (stripL cs)))))
  else stripL (joinL (List.filter keepLine (splitlinesL (stripL cs))))

/-- `_clean_model_output` (draft.py lines 45-83). -/
def clean_model_output (s : String) : String := ⟨cleanL s.data⟩

/-! ### The interactive review loop of `_draft_command` (draft.py lines 213-266)

External collaborators (the user's menu selection, the model provider invoked
on Regenerate, the editor invoked on Edit) are scripted: each loop iteration
consumes one `ReviewAction` carrying the external response.  `cancel` models
`questionary` returning `None`; `regen r` models a successful provider call
returning raw text `r`; `regenFail`/`editFail` model the provider or editor
raising (`OllamaError`/`RuntimeError`), which `draft_command` does not catch;
`edit rawEdit` models a successful editor run after which the temporary file
holds `rawEdit` (`_edit_message` returns that content stripped). -/

inductive ReviewAction
  | cancel
  | regen (resp : String)
  | regenFail
  | edit (rawEdit : String)
  | editFail
  | commit
  | exitNoCommit
deriving DecidableEq

/-- How one run of the review loop ends: `exited code committed?` models a
`return`/`break` (for the Commit action the loop breaks carrying the current
message), `uncaught` models an exception propagating out of the loop, and
`awaiting` means the scripted actions ran out with the loop still alive. -/
inductive ReviewOutcome
  | exited (code : Int) (committed : Option String)
  | uncaught
  | awaiting (current : String)
deriving DecidableEq

/-- The `while True` loop of `_draft_command` (draft.py lines 215-262), given
the current candidate message and the scripted actions.  Returns the list of
candidates passed to `_print_preview` (one per iteration, printed before the
action menu) together with the outcome. -/
def review_loop : String → List ReviewAction → List String × ReviewOutcome
  | m, [] => ([m], .awaiting m)
  | m, a :: rest =>
    match a with
    | .cancel => ([m], .exited 1 none)
    | .regen r =>
      let m2 := clean_model_output r
      if pyStrip m2 = "" then ([m], .exited 1 none)
      else
        let r2 := review_loop m2 rest
        (m :: r2.1, r2.2)
    | .regenFail => ([m], .uncaught)
    | .edit rawEdit =>
      let edited := pyStrip rawEdit
      if pyStrip edited = "" then ([m], .exited 1 none)
      else
        let r2 := review_loop (clean_model_output edited) rest
        (m :: r2.1, r2.2)
    | .editFail => ([m], .uncaught)
    | .commit => ([m], .exited 0 (some m))
    | .exitNoCommit => ([m], .exited 0 none)

/-- The configuration object as *used* by `_draft_command` and produced by
`init.py`'s wizard: the attributes the draft command reads
(`scope_strategy`, `default_action`, ...).  Note that `core/config.py`'s
actual `Config` class (`Config` below) has `scope_mode`/`auto_commit`
instead — that mismatch is claim C1. -/
structure DraftConfig where
  language : String
  provider : String
  model : String
  default_action : String
  prompt_profile : String
  scope_strategy : String
  max_diff_bytes : Nat
  editor : String
deriving DecidableEq

/-- Scripted environment for one `draft_command` run: the results of the
external calls it makes.  `config = none` models `load_effective_config`
raising `FileNotFoundError` (uncaught); `gen = none` models the provider
raising `OllamaError` (uncaught); `commit_ok = false` models `git commit`
failing, which raises `GitError` (caught, exit code 2). -/
structure DraftEnv where
  is_repo : Bool
  has_staged : Bool
  config : Option DraftConfig
  gen : Option String
  actions : List ReviewAction
  commit_ok : Bool
deriving DecidableEq

/-- Result of a `draft_command` run: a process exit code, an uncaught
exception (Python would exit with a traceback), or `stuck` when the scripted
actions ran out while the loop was still waiting for input. -/
inductive DraftResult
  | exit (code : Int)
  | uncaughtError
  | stuck
deriving DecidableEq

/-- `draft_command`/`_draft_command` (draft.py lines 111-266): preflight
checks, configuration load, generation, sanitization, review loop, commit.
The wrapper `draft_command` maps `GitError` to exit code 2 and
`KeyboardInterrupt` to 130 (not scripted here); all other exceptions
propagate. -/
def draft_command (env : DraftEnv) : DraftResult :=
  if !env.is_repo then .exit 1
  else if !env.has_staged then .exit 1
  else
    match env.config with
    | none => .uncaughtError
    | some _cfg =>
      match env.gen with
      | none => .uncaughtError
      | some g =>
        let message := clean_model_output g
        if pyStrip message = "" then .exit 1
        else
          match (review_loop message env.actions).2 with
          | .awaiting _ => .stuck
          | .uncaught => .uncaughtError
          | .exited c none => .exit c
          | .exited c (some _m) => if env.commit_ok then .exit c else .exit 2

/-! ### `core/config.py`: `load_config` over an abstract TOML document -/

/-- A TOML scalar as produced by `tomllib` for the keys `load_config` reads. -/
inductive TomlValue
  | str (s : String)
  | bool (b : Bool)
  | int (n : Int)
deriving DecidableEq

/-- `data.get(key)` on a parsed TOML table. -/
def tomlGet (data : List (String × TomlValue)) (key : String) : Option TomlValue :=
  (data.find? (fun p => p.1 == key)).map (fun p => p.2)

/-- Python f-string interpolation of the (possibly missing) raw value, used in
the `ValueError` messages of `load_config`. -/
def tomlText : Option TomlValue → String
  | none => "None"
  | some (.str s) => s
  | some (.bool b) => if b then "True" else "False"
  | some (.int n) => toString n

/-- `isinstance(v, str) and v.strip()` (the `model` check). -/
def tomlIsNonEmptyStr : Option TomlValue → Bool
  | some (.str s) => pyStrip s != ""
  | _ => false

/-- `isinstance(v, bool)` (the `auto_commit` check). -/
def tomlIsBool : Option TomlValue → Bool
  | some (.bool _) => true
  | _ => false

/-- `isinstance(v, int) and v > 0` (the `max_diff_bytes` check; in Python
`bool` is a subclass of `int`, so `True` passes). -/
def tomlIsPosInt : Option TomlValue → Bool
  | some (.int n) => n > 0
  | some (.bool b) => b
  | _ => false

/-- Extract the string payload after validation (the validated branches
guarantee the shape; the default is never reached there). -/
def tomlStr : Option TomlValue → String
  | some (.str s) => s
  | _ => ""

/-- Extract the boolean payload after validation. -/
def tomlBool : Option TomlValue → Bool
  | some (.bool b) => b
  | _ => false

/-- Extract the integer payload after validation (`True` reads back as 1). -/
def tomlInt : Option TomlValue → Int
  | some (.int n) => n
  | some (.bool b) => if b then 1 else 0
  | _ => 0

/-- `core/config.py`'s `Config` dataclass (lines 39-62): note the fields
`auto_commit` and `scope_mode` — there is no `default_action` and no
`scope_strategy`. -/
structure Config where
  language : String
  provider : String
  model : String
  auto_commit : Bool
  prompt_profile : String
  scope_mode : String
  max_diff_bytes : Int
  editor : String
deriving DecidableEq

/-- The field names of `core/config.py`'s `Config` dataclass, in declaration
order. -/
def config_field_names : List String :=
  ["language", "provider", "model", "auto_commit", "prompt_profile",
   "scope_mode", "max_diff_bytes", "editor"]

/-- `load_config` (config.py lines 86-142): fetch the eight keys, validate
each in order, raising `ValueError` with the source's message on the first
failure; on success build the `Config` (with `model` stripped). -/
def load_config (data : List (String × TomlValue)) : Except String Config :=
  let language := tomlGet data "language"
  let provider := tomlGet data "provider"
  let model := tomlGet data "model"
  let auto_commit := tomlGet data "auto_commit"
  let prompt_profile := tomlGet data "prompt_profile"
  let scope_mode := tomlGet data "scope_mode"
  let max_diff_bytes := tomlGet data "max_diff_bytes"
  let editor := tomlGet data "editor"
  if !(language == some (.str "en") || language == some (.str "ja")) then
    .error ("Unsupported language: " ++ tomlText language)
  else if !(provider == some (.str "ollama")) then
    .error ("Unsupported provider: " ++ tomlText provider)
  else if !(tomlIsNonEmptyStr model) then
    .error "model must be a non-empty string."
  else if !(tomlIsBool auto_commit) then
    .error "auto_commit must be a boolean."
  else if !(prompt_profile == some (.str "default") || prompt_profile == some (.str "conventional")) then
    .error ("Unsupported prompt_profile: " ++ tomlText prompt_profile)
  else if !(scope_mode == some (.str "prompt") || scope_mode == some (.str "auto") || scope_mode == some (.str "fixed")) then
    .error ("Unsupported scope_mode: " ++ tomlText scope_mode)
  else if !(tomlIsPosInt max_diff_bytes) then
    .error "max_diff_bytes must be a positive integer."
  else if !(editor == some (.str "code") || editor == some (.str "vim") || editor == some (.str "nano")) then
    .error ("Unsupported editor: " ++ tomlText editor)
  else
    .ok ⟨tomlStr language, tomlStr provider, pyStrip (tomlStr model),
         tomlBool auto_commit, tomlStr prompt_profile, tomlStr scope_mode,
         tomlInt max_diff_bytes, tomlStr editor⟩

/-- The names bound at module level in `core/config.py` (its importable
names): the `__future__` import, the three `import`ed helpers, `__all__`,
the four type aliases, `Config`, and the seven functions. -/
def config_module_names : List String :=
  ["annotations", "dataclass", "Path", "Literal", "__all__",
   "Language", "Provider", "PromptProfile", "ScopeMode", "Config",
   "global_config_path", "repo_config_path", "load_config",
   "load_global_config", "load_repo_config", "load_effective_config",
   "save_config"]

/-- The names `commands/init.py` imports from `compose_message.core.config`
(init.py lines 8-16). -/
def init_config_imports : List String :=
  ["Config", "DefaultAction", "Provider", "ScopeStrategy",
   "global_config_path", "repo_config_path", "save_config"]

/-- Whether the `from compose_message.core.config import ...` statement of
`init.py` can succeed: every imported name must exist in the module. -/
def init_import_ok : Bool :=
  init_config_imports.all (fun n => config_module_names.contains n)

/-- The `Config` attributes read by `_draft_command` (draft.py lines
160-203), in execution order, before the first provider invocation at line
207.  The first name not among `config_field_names` is where Python raises
`AttributeError`. -/
def draft_pre_generation_config_reads : List String :=
  ["prompt_profile", "scope_strategy", "model", "max_diff_bytes",
   "language", "prompt_profile", "scope_strategy"]

/-! ### `core/prompt.py`: the prompt builder -/

/-- The `_Template` dataclass of prompt.py (lines 162-189). -/
structure PromptTemplate where
  system_role : String
  system_task_default : String
  system_task_conventional : String
  system_subject : String
  system_body : String
  system_imperative : String
  system_accuracy : String
  system_no_thoughts : String
  system_plain : String
  system_output_language : String
  system_conventional_intro : String
  system_conventional_scope_auto : String
  system_conventional_scope_omit : String
  user_intro : String
  user_format_title : String
  user_format_lines_default : List String
  user_format_lines_conventional : List String
  user_status_title : String
  user_diff_title : String
deriving DecidableEq

/-- `_TEMPLATES["en"]` (prompt.py lines 194-248). -/
def en_template : PromptTemplate where
  system_role := "You are a senior software engineer."
  system_task_default := "Write a Git commit message that accurately reflects the staged changes."
  system_task_conventional := "Write a Conventional Commits message with an emoji prefix that accurately reflects the staged changes."
  system_subject := "The first line (subject) must be <= {max_subject_length} characters."
  system_body := "After the subject line, add a blank line. Then output the line 'Changes:' and a bullet list of changes using '- '. The body must contain at least one bullet."
  system_imperative := "Use the imperative mood (e.g. 'Add', 'Fix', 'Refactor')."
  system_accuracy := "Avoid mentioning details not present in the diff."
  system_no_thoughts := "Do not include analysis, reasoning, or self-talk (e.g. 'Thinking...'). Output the commit message only."
  system_plain := "Output plain text only. Do not include Markdown code fences."
  system_output_language := ""
  system_conventional_intro := "The subject line must start with an emoji and follow Conventional Commits: '<emoji> type(scope): subject' or '<emoji> type: subject'. The emoji must be the first token."
  system_conventional_scope_auto := "Include a scope and infer it from the diff (choose a short, meaningful scope)."
  system_conventional_scope_omit := "Do not include a scope (use 'type: subject')."
  user_intro := "Generate a commit message for the following staged changes."
  user_format_title := "Output format:"
  user_format_lines_default :=
    ["1) Subject line starting with an emoji: <emoji> Subject",
     "2) Blank line",
     "3) Body starting with 'Changes:' followed by a bullet list of changes using '- ' (at least one bullet)"]
  user_format_lines_conventional :=
    ["1) Subject line in Conventional Commits format starting with an emoji: <emoji> type(scope): subject or <emoji> type: subject",
     "2) Blank line",
     "3) Body starting with 'Changes:' followed by a bullet list of changes using '- ' (at least one bullet)",
     "Types: feat, fix, docs, style, refactor, perf, test, build, ci, chore, revert"]
  user_status_title := "Repository status (porcelain):"
  user_diff_title := "Staged diff:"

/-- `_TEMPLATES["ja"]` (prompt.py lines 249-312). -/
def ja_template : PromptTemplate where
  system_role := "あなたは経験豊富なソフトウェアエンジニアです。"
  system_task_default := "以下のステージ差分に基づき、適切な Git のコミットメッセージを作成してください。"
  system_task_conventional := "以下のステージ差分に基づき、絵文字 (emoji) を先頭に付けた Conventional Commits 形式のコミットメッセージを作成してください。"
  system_subject := "1行目（件名）は {max_subject_length} 文字以内を目安に簡潔にしてください。"
  system_body := "件名の後に必ず空行を入れ、その次の行に「変更内容:」と書いてください。その後に「- 」で始まる箇条書きで変更内容を記載してください。本文は最低1つの箇条書きを含めてください。"
  system_imperative := ""
  system_accuracy := "差分に含まれない内容を推測して断定しないでください。"
  system_no_thoughts := "思考過程 (分析・推論) や独り言 (例: 'Thinking...') は出力せず、コミットメッセージ本文のみを出力してください。"
  system_plain := "出力はプレーンテキストのみとし、Markdown のコードブロック (```) は使わないでください。"
  system_output_language := "コミットメッセージは日本語で書いて下さい。"
  system_conventional_intro := "件名は絵文字（emoji）を先頭に付けた形式で、「<emoji> type(scope): subject」または「<emoji> type: subject」のいずれかにしてください。絵文字は件名の最初に必ず配置してください。"
  system_conventional_scope_auto := "scope を含め、差分から短く意味のある scope を推測してください。"
  system_conventional_scope_omit := "scope は含めず、type: subject の形式にしてください。"
  user_intro := "以下のステージされた変更に対するコミットメッセージを生成してください。"
  user_format_title := "出力形式:"
  user_format_lines_default :=
    ["1) 件名行は絵文字を先頭に付けてください: <emoji> タイプ(スコープ): 件名 または <emoji> タイプ: 件名",
     "2) 空行",
     "3) 本文は「変更内容:」の行から始め、その後に「- 」で始まる箇条書きで変更内容を記載してください (最低1つ)"]
  user_format_lines_conventional :=
    ["1) 件名行は絵文字を先頭に付けた Conventional Commits 形式: <emoji> type(scope): subject または <emoji> type: subject",
     "2) 空行",
     "3) 本文は「変更内容:」の行から始め、その後に「- 」で始まる箇条書きで変更内容を記載してください (最低1つ)",
     "type の例: feat, fix, docs, style, refactor, perf, test, build, ci, chore, revert"]
  user_status_title := "リポジトリ状態 (porcelain):"
  user_diff_title := "ステージ差分:"

/-- The `PromptParts` dataclass (prompt.py lines 30-43). -/
structure PromptParts where
  system : String
  user : String
deriving DecidableEq

/-- The failure conditions of `build_commit_message_prompt`.  In the source
each is a `ValueError` distinguished by its message (`promptErrorMessage`). -/
inductive PromptError
  | invalidInput
  | unsupportedLanguage (language : String)
  | unsupportedProfile (prompt_profile : String)
  | unsupportedScope (scope_strategy : String)
deriving DecidableEq

/-- The `ValueError` message carried by each failure condition
(prompt.py lines 82, 89, 92, 94). -/
def promptErrorMessage : PromptError → String
  | .invalidInput => "staged_diff is required and must not be empty."
  | .unsupportedLanguage l => "Unsupported language: " ++ l
  | .unsupportedProfile p => "Unsupported prompt_profile: " ++ p
  | .unsupportedScope s => "Unsupported scope_strategy: " ++ s

/-- `_TEMPLATES.get(language)` (prompt.py line 85). -/
def templatesGet (language : String) : Option PromptTemplate :=
  if language = "en" then some en_template
  else if language = "ja" then some ja_template
  else none

/-- Python `s.rstrip("\n")`: strip only trailing newline characters. -/
def rstripNl (s : String) : String :=
  ⟨(s.data.reverse.dropWhile (fun c => c = '\n')).reverse⟩

/-- Python `"\n".join(...)` on strings. -/
def joinNS (xs : List String) : String := String.intercalate "\n" xs

/-- `build_commit_message_prompt` (prompt.py lines 46-159): validate the
diff and the three enumerated options, then assemble the system lines and
user sections exactly in the source's order and join each with `"\n"`. -/
def build_commit_message_prompt (staged_diff : String) (status_porcelain : Option String)
    (max_subject_length : Nat) (language : String) (prompt_profile : String)
    (scope_strategy : String) : Except PromptError PromptParts :=
  if pyStrip staged_diff = "" then .error .invalidInput
  else
    match templatesGet language with
    | none => .error (.unsupportedLanguage language)
    | some t =>
      if !(prompt_profile = "default" || prompt_profile = "conventional") then
        .error (.unsupportedProfile prompt_profile)
      else if !(scope_strategy = "auto" || scope_strategy = "omit") then
        .error (.unsupportedScope scope_strategy)
      else
        let system_lines :=
          [t.system_role]
          ++ (if prompt_profile = "default" then [t.system_task_default]
              else [t.system_task_conventional])
          ++ [t.system_subject.replace "{max_subject_length}" (toString max_subject_length)]
          ++ [t.system_body]
          ++ (if language = "en" then [t.system_imperative] else [])
          ++ (if prompt_profile = "conventional" then
                [t.system_conventional_intro]
                ++ (if scope_strategy = "auto" then [t.system_conventional_scope_auto]
                    else [t.system_conventional_scope_omit])
              else [])
          ++ [t.system_accuracy, t.system_no_thoughts, t.system_plain]
          ++ (if t.system_output_language ≠ "" then [t.system_output_language] else [])
        let user_sections :=
          [t.user_intro, "", t.user_format_title]
          ++ (if prompt_profile = "default" then t.user_format_lines_default
              else t.user_format_lines_conventional)
          ++ [""]
          ++ (match status_porcelain with
              | some st => if pyStrip st ≠ "" then [t.user_status_title, pyStrip st, ""] else []
              | none => [])
          ++ [t.user_diff_title, rstripNl staged_diff]
        .ok ⟨joinNS system_lines, joinNS user_sections⟩

/-! ### `core/git.py`: the byte cap of `get_staged_diff` (lines 195-246) -/

/-- UTF-8 encoding of one scalar value, as a list of byte values. -/
def encodeChar (c : Char) : List Nat :=
  let n := c.toNat
  if n < 128 then [n]
  else if n < 2048 then [192 + n / 64, 128 + n % 64]
  else if n < 65536 then [224 + n / 4096, 128 + (n / 64) % 64, 128 + n % 64]
  else [240 + n / 262144, 128 + (n / 4096) % 64, 128 + (n / 64) % 64, 128 + n % 64]

/-- `text.encode("utf-8")`. -/
def encodeL : List Char → List Nat
  | [] => []
  | c :: rest => encodeChar c ++ encodeL rest

/-- A UTF-8 continuation byte. -/
def isContByte (b : Nat) : Bool := 128 ≤ b && b < 192

/-- `bytes.decode("utf-8", errors="ignore")`, fuelled so the recursion is
structural (each step consumes at least one byte, so any fuel at least the
length of the input gives the decoder's value): decode complete sequences,
drop bytes that do not form one (in particular an incomplete sequence at the
end of the input). -/
def decodeIgnoreAux : Nat → List Nat → List Char
  | 0, _ => []
  | _ + 1, [] => []
  | fuel + 1, b :: bs =>
    if b < 128 then Char.ofNat b :: decodeIgnoreAux fuel bs
    else if 192 ≤ b && b < 224 then
      match bs with
      | b2 :: rest =>
        if isContByte b2 then
          Char.ofNat ((b - 192) * 64 + (b2 - 128)) :: decodeIgnoreAux fuel rest
        else decodeIgnoreAux fuel (b2 :: rest)
      | [] => []
    else if 224 ≤ b && b < 240 then
      match bs with
      | b2 :: b3 :: rest =>
        if isContByte b2 && isContByte b3 then
          Char.ofNat ((b - 224) * 4096 + (b2 - 128) * 64 + (b3 - 128)) :: decodeIgnoreAux fuel rest
        else if !(isContByte b2) then decodeIgnoreAux fuel (b2 :: b3 :: rest)
        else decodeIgnoreAux fuel (b3 :: rest)
      | [b2] => if isContByte b2 then [] else decodeIgnoreAux fuel [b2]
      | [] => []
    else if 240 ≤ b && b < 248 then
      match bs with
      | b2 :: b3 :: b4 :: rest =>
        if isContByte b2 && isContByte b3 && isContByte b4 then
          Char.ofNat ((b - 240) * 262144 + (b2 - 128) * 4096 + (b3 - 128) * 64 + (b4 - 128)) ::
            decodeIgnoreAux fuel rest
        else if !(isContByte b2) then decodeIgnoreAux fuel (b2 :: b3 :: b4 :: rest)
        else if !(isContByte b3) then decodeIgnoreAux fuel (b3 :: b4 :: rest)
        else decodeIgnoreAux fuel (b4 :: rest)
      | [b2, b3] =>
        if isContByte b2 && isContByte b3 then []
        else if !(isContByte b2) then decodeIgnoreAux fuel [b2, b3]
        else decodeIgnoreAux fuel [b3]
      | [b2] => if isContByte b2 then [] else decodeIgnoreAux fuel [b2]
      | [] => []
    else decodeIgnoreAux fuel bs

/-- `bytes.decode("utf-8", errors="ignore")`. -/
def decodeIgnore (bs : List Nat) : List Char := decodeIgnoreAux bs.length bs

/-- The truncation marker appended by `get_staged_diff` (git.py line 244). -/
def truncation_marker : String := "\n\n[diff truncated]\n"

/-- The byte cap of `get_staged_diff` (git.py lines 239-244): if the UTF-8
encoding exceeds `max_bytes`, keep the first `max_bytes` bytes, decode them
leniently and append the truncation marker. -/
def cap_diff_text (diff_text : String) (max_bytes : Option Nat) : String :=
  match max_bytes with
  | none => diff_text
  | some mb =>
    let raw := encodeL diff_text.data
    if raw.length > mb then ⟨decodeIgnore (raw.take mb)⟩ ++ truncation_marker
    else diff_text

/-- The assembly of the diff text in `get_staged_diff` (git.py lines
217-237): the patch, optionally prefixed by the `--stat` block. -/
def assemble_diff_text (patch : String) (stats : String) (include_stats : Bool) : String :=
  if include_stats && stats ≠ "" then
    joinNS ["[staged diff --stat]", stats, "", "[staged diff]", patch]
  else patch

/-- `get_staged_diff` (git.py lines 195-246) with the two `git diff` outputs
scripted as `patch` and `stats`. -/
def get_staged_diff (patch : String) (stats : String) (include_stats : Bool)
    (max_bytes : Option Nat) : String :=
  cap_diff_text (assemble_diff_text patch stats include_stats) max_bytes

/-- Specification-side description of the truncation (C10): the longest
prefix of whole characters whose UTF-8 encoding fits in `mb` bytes. -/
def utf8Fit : List Char → Nat → List Char
  | [], _ => []
  | c :: rest, mb =>
    if (encodeChar c).length ≤ mb then c :: utf8Fit rest (mb - (encodeChar c).length)
    else []

/-! ### Specification-side definitions used to compare against the code -/

/-- Specification-side sanitizer for inputs whose first line starts with
"thinking" (claim C6's wording): discard lines from the start up to and
including the first line containing "done thinking" (or all lines when none
exists), drop the standalone marker lines from the remainder, rejoin, and
trim the result.  Unlike the code it never pre-strips the input. -/
def cleanSpecC6 (cs : List Char) : List Char :=
  stripL (joinL (List.filter keepLine (afterDone (splitlinesL cs))))

/-- "No meta-commentary is detected" (claim C7): after trimming, the first
line does not start with "thinking" and no line is a standalone marker. -/
def noMeta (cs : List Char) : Bool :=
  !headThinkingL (stripL cs) && (splitlinesL (stripL cs)).all keepLine

/-- A TOML document holding the eight fields of config.py's own schema, with
a variable `scope_mode` value. -/
def toml_doc_code_schema (sm : String) : List (String × TomlValue) :=
  [("language", TomlValue.str "en"), ("provider", TomlValue.str "ollama"),
   ("model", TomlValue.str "llama3.1:8b"), ("auto_commit", TomlValue.bool false),
   ("prompt_profile", TomlValue.str "conventional"), ("scope_mode", TomlValue.str sm),
   ("max_diff_bytes", TomlValue.int 200000), ("editor", TomlValue.str "vim")]

/-- A TOML document holding exactly the eight fields of spec §3, every one
inside its spec-enumerated domain (`default_action ∈ {edit, commit}`,
`scope_strategy ∈ {auto, omit}`). -/
def spec_schema_doc : List (String × TomlValue) :=
  [("language", TomlValue.str "en"), ("provider", TomlValue.str "ollama"),
   ("model", TomlValue.str "llama3.1:8b"), ("default_action", TomlValue.str "edit"),
   ("prompt_profile", TomlValue.str "conventional"), ("scope_strategy", TomlValue.str "auto"),
   ("max_diff_bytes", TomlValue.int 200000), ("editor", TomlValue.str "vim")]

/-- A concrete draft-command configuration (the duck-typed attribute view). -/
def cfg_example : DraftConfig :=
  ⟨"en", "ollama", "llama3.1:8b", "edit", "default", "omit", 200000, "vim"⟩

/-- Equality of `Except` results is decidable (used to evaluate `load_config`
and `build_commit_message_prompt` on concrete documents). -/
instance {ε α : Type} [DecidableEq ε] [DecidableEq α] : DecidableEq (Except ε α) :=
  fun a b =>
    match a, b with
    | .ok x, .ok y => decidable_of_iff (x = y) (by simp)
    | .error e, .error f => decidable_of_iff (e = f) (by simp)
    | .ok _, .error _ => isFalse (by simp)
    | .error _, .ok _ => isFalse (by simp)

/-- The effect of `lstrip` on a line decomposition: drop leading
whitespace-only lines, left-trim the first remaining line. -/
def lstripLines : List (List Char) → List (List Char)
  | [] => []
  | l :: rest => if lstripL l = [] then lstripLines rest else lstripL l :: rest

/-- The effect of `rstrip` on a line decomposition: drop trailing
whitespace-only lines, right-trim the last remaining line. -/
def rstripLines : List (List Char) → List (List Char)
  | [] => []
  | l :: rest =>
    match rstripLines rest with
    | [] => if rstripL l = [] then [] else [rstripL l]
    | r => l :: r

/-! ### Helper lemmas: stripping -/

theorem dropWhile_self_idem (p : Char → Bool) (l : List Char) :
    (l.dropWhile p).dropWhile p = l.dropWhile p := by
  induction l with
  | nil => rfl
  | cons a t ih =>
    by_cases h : p a
    · simp [List.dropWhile_cons, h, ih]
    · simp [List.dropWhile_cons, h]

theorem lstripL_idem (cs : List Char) : lstripL (lstripL cs) = lstripL cs :=
  dropWhile_self_idem wsChar cs

theorem rstripL_idem (cs : List Char) : rstripL (rstripL cs) = rstripL cs := by
  unfold rstripL
  rw [List.reverse_reverse, dropWhile_self_idem]

theorem rstripL_cons (c : Char) (t : List Char) :
    rstripL (c :: t) =
      if rstripL t = [] then (if wsChar c then [] else [c]) else c :: rstripL t := by
  unfold rstripL
  rw [List.reverse_cons, List.dropWhile_append]
  by_cases h : (t.reverse.dropWhile wsChar).isEmpty
  · rw [if_pos h]
    have h2 : t.reverse.dropWhile wsChar = [] := by simpa [List.isEmpty_iff] using h
    rw [if_pos (by simp [h2])]
    by_cases hc : wsChar c <;> simp [List.dropWhile_cons, hc]
  · rw [if_neg h]
    have h2 : t.reverse.dropWhile wsChar ≠ [] := by simpa [List.isEmpty_iff] using h
    rw [if_neg (by simp [h2])]
    simp

theorem lstripL_cons_ws {c : Char} (h : wsChar c) (t : List Char) :
    lstripL (c :: t) = lstripL t := by
  simp [lstripL, List.dropWhile_cons, h]

theorem lstripL_cons_not_ws {c : Char} (h : ¬ wsChar c) (t : List Char) :
    lstripL (c :: t) = c :: t := by
  simp [lstripL, List.dropWhile_cons, h]

theorem lstrip_rstrip_comm (cs : List Char) :
    lstripL (rstripL cs) = rstripL (lstripL cs) := by
  induction cs with
  | nil => rfl
  | cons c t ih =>
    by_cases hc : wsChar c
    · rw [lstripL_cons_ws hc, rstripL_cons]
      by_cases h : rstripL t = []
      · rw [if_pos h, if_pos hc, ← ih, h]
      · rw [if_neg h, lstripL_cons_ws hc, ih]
    · rw [lstripL_cons_not_ws hc, rstripL_cons]
      by_cases h : rstripL t = []
      · rw [if_pos h, if_neg hc]
        exact lstripL_cons_not_ws hc []
      · rw [if_neg h]
        exact lstripL_cons_not_ws hc _

theorem stripL_idem (cs : List Char) : stripL (stripL cs) = stripL cs := by
  show rstripL (lstripL (rstripL (lstripL cs))) = rstripL (lstripL cs)
  rw [lstrip_rstrip_comm (lstripL cs), lstripL_idem, rstripL_idem]

theorem pyStrip_idem (s : String) : pyStrip (pyStrip s) = pyStrip s := by
  show (⟨stripL (String.data ⟨stripL s.data⟩)⟩ : String) = ⟨stripL s.data⟩
  exact congrArg String.mk (stripL_idem s.data)

/-! ### Helper lemmas: the prompt builder -/

theorem build_empty_diff {d : String} (st : Option String) (msl : Nat) (l p s : String)
    (hd : pyStrip d = "") :
    build_commit_message_prompt d st msl l p s = Except.error PromptError.invalidInput := by
  simp [build_commit_message_prompt, hd]

theorem build_bad_language {d : String} (st : Option String) (msl : Nat) {l : String}
    (p s : String) (hd : pyStrip d ≠ "") (h1 : l ≠ "en") (h2 : l ≠ "ja") :
    build_commit_message_prompt d st msl l p s =
      Except.error (PromptError.unsupportedLanguage l) := by
  simp [build_commit_message_prompt, templatesGet, hd, h1, h2]

theorem build_bad_profile {d : String} (st : Option String) (msl : Nat) {l p : String}
    (s : String) (hd : pyStrip d ≠ "") (hl : l = "en" ∨ l = "ja")
    (h1 : p ≠ "default") (h2 : p ≠ "conventional") :
    build_commit_message_prompt d st msl l p s =
      Except.error (PromptError.unsupportedProfile p) := by
  rcases hl with h | h <;> subst h <;>
    simp [build_commit_message_prompt, templatesGet, hd, h1, h2]

theorem build_bad_scope {d : String} (st : Option String) (msl : Nat) {l p s : String}
    (hd : pyStrip d ≠ "") (hl : l = "en" ∨ l = "ja")
    (hp : p = "default" ∨ p = "conventional") (h1 : s ≠ "auto") (h2 : s ≠ "omit") :
    build_commit_message_prompt d st msl l p s =
      Except.error (PromptError.unsupportedScope s) := by
  rcases hl with h | h <;> subst h <;> rcases hp with h | h <;> subst h <;>
    simp [build_commit_message_prompt, templatesGet, hd, h1, h2]

theorem build_ok {d : String} (st : Option String) (msl : Nat) {l p s : String}
    (hd : pyStrip d ≠ "") (hl : l = "en" ∨ l = "ja")
    (hp : p = "default" ∨ p = "conventional") (hs : s = "auto" ∨ s = "omit") :
    ∃ parts, build_commit_message_prompt d st msl l p s = Except.ok parts := by
  rcases hl with h | h <;> subst h <;> rcases hp with h | h <;> subst h <;>
    rcases hs with h | h <;> subst h <;>
    simp [build_commit_message_prompt, templatesGet, hd]

/-! ### Helper lemmas: whitespace and blank lines -/

theorem rstrip_append (a b : List Char) :
    rstripL (a ++ b) = if rstripL b = [] then rstripL a else a ++ rstripL b := by
  unfold rstripL
  rw [List.reverse_append, List.dropWhile_append]
  by_cases h : (b.reverse.dropWhile wsChar).isEmpty
  · have h2 : b.reverse.dropWhile wsChar = [] := by simpa [List.isEmpty_iff] using h
    rw [if_pos h, if_pos (by simp [h2])]
  · have h2 : b.reverse.dropWhile wsChar ≠ [] := by simpa [List.isEmpty_iff] using h
    rw [if_neg h, if_neg (by simp [h2]), List.reverse_append, List.reverse_reverse]

theorem lstrip_append (a b : List Char) :
    lstripL (a ++ b) = if lstripL a = [] then lstripL b else lstripL a ++ b := by
  unfold lstripL
  rw [List.dropWhile_append]
  by_cases h : (a.dropWhile wsChar).isEmpty
  · have h2 : a.dropWhile wsChar = [] := by simpa [List.isEmpty_iff] using h
    rw [if_pos h, if_pos h2]
  · have h2 : a.dropWhile wsChar ≠ [] := by simpa [List.isEmpty_iff] using h
    rw [if_neg h, if_neg h2]

theorem lstripL_eq_nil_iff (cs : List Char) : lstripL cs = [] ↔ ∀ c ∈ cs, wsChar c := by
  simp [lstripL, List.dropWhile_eq_nil_iff]

theorem rstripL_eq_nil_iff (cs : List Char) : rstripL cs = [] ↔ ∀ c ∈ cs, wsChar c := by
  unfold rstripL
  rw [List.reverse_eq_nil_iff, List.dropWhile_eq_nil_iff]
  simp

theorem stripL_eq_lr (cs : List Char) : stripL cs = lstripL (rstripL cs) :=
  (lstrip_rstrip_comm cs).symm

theorem stripL_lstripL (cs : List Char) : stripL (lstripL cs) = stripL cs := by
  show rstripL (lstripL (lstripL cs)) = rstripL (lstripL cs)
  rw [lstripL_idem]

theorem stripL_rstripL (cs : List Char) : stripL (rstripL cs) = stripL cs := by
  show rstripL (lstripL (rstripL cs)) = rstripL (lstripL cs)
  rw [lstrip_rstrip_comm, rstripL_idem, ← lstrip_rstrip_comm, lstrip_rstrip_comm]

theorem stripL_eq_nil_iff (cs : List Char) : stripL cs = [] ↔ ∀ c ∈ cs, wsChar c := by
  constructor
  · intro h
    have h2 : ∀ c ∈ lstripL cs, wsChar c := (rstripL_eq_nil_iff _).mp h
    have h3 : lstripL cs = [] := by
      rcases he : lstripL cs with _ | ⟨d, t⟩
      · rfl
      · exfalso
        have hd : wsChar d := h2 d (he ▸ List.mem_cons_self d t)
        have hh := List.head?_dropWhile_not wsChar cs
        rw [show cs.dropWhile wsChar = d :: t from he] at hh
        simp only [List.head?_cons] at hh
        rw [hh] at hd
        cases hd
    rw [lstripL_eq_nil_iff] at h3
    exact h3
  · intro h
    have h1 : lstripL cs = [] := (lstripL_eq_nil_iff cs).mpr h
    show rstripL (lstripL cs) = []
    rw [h1]
    rfl

theorem stripL_append_ws (a b : List Char) (h : ∀ c ∈ b, wsChar c) :
    stripL (a ++ b) = stripL a := by
  rw [stripL_eq_lr, stripL_eq_lr, rstrip_append, if_pos ((rstripL_eq_nil_iff b).mpr h)]

theorem keepLine_lstripL (l : List Char) : keepLine (lstripL l) = keepLine l := by
  unfold keepLine
  rw [stripL_lstripL]

theorem keepLine_rstripL (l : List Char) : keepLine (rstripL l) = keepLine l := by
  unfold keepLine
  rw [stripL_rstripL]

theorem containsDone_lstripL (l : List Char) : containsDone (lstripL l) = containsDone l := by
  unfold containsDone
  rw [stripL_lstripL]

theorem containsDone_rstripL (l : List Char) : containsDone (rstripL l) = containsDone l := by
  unfold containsDone
  rw [stripL_rstripL]

theorem startsThinking_lstripL (l : List Char) :
    startsThinking (lstripL l) = startsThinking l := by
  unfold startsThinking
  rw [stripL_lstripL]

theorem startsThinking_rstripL (l : List Char) :
    startsThinking (rstripL l) = startsThinking l := by
  unfold startsThinking
  rw [stripL_rstripL]

theorem keepLine_of_ws (l : List Char) (h : ∀ c ∈ l, wsChar c) : keepLine l = true := by
  unfold keepLine
  rw [(stripL_eq_nil_iff l).mpr h]
  decide

theorem containsDone_of_ws (l : List Char) (h : ∀ c ∈ l, wsChar c) :
    containsDone l = false := by
  unfold containsDone
  rw [(stripL_eq_nil_iff l).mpr h]
  decide

theorem not_ws_of_containsDone (l : List Char) (h : containsDone l = true) :
    ¬ ∀ c ∈ l, wsChar c := by
  intro hws
  rw [containsDone_of_ws l hws] at h
  cases h

theorem not_ws_of_startsThinking (l : List Char) (h : startsThinking l = true) :
    ¬ ∀ c ∈ l, wsChar c := by
  intro hws
  unfold startsThinking at h
  rw [(stripL_eq_nil_iff l).mpr hws] at h
  cases h

/-! ### Helper lemmas: `splitlinesL` -/

set_option maxHeartbeats 1600000 in
theorem splitlinesL_cons_break {c : Char} (hb : breakChar c = true) (rest : List Char)
    (hg : ∀ rest2, c = '\r' → rest = '\n' :: rest2 → False) :
    splitlinesL (c :: rest) = [] :: splitlinesL rest := by
  rw [splitlinesL.eq_3 c rest hg, if_pos hb]

theorem splitlinesL_cons_nil {c : Char} (hb : ¬ breakChar c = true) (rest : List Char)
    (hg : ∀ rest2, c = '\r' → rest = '\n' :: rest2 → False)
    (hsp : splitlinesL rest = []) :
    splitlinesL (c :: rest) = [[c]] := by
  rw [splitlinesL.eq_3 c rest hg, if_neg hb, hsp]

theorem splitlinesL_cons_cons {c : Char} (hb : ¬ breakChar c = true) (rest : List Char)
    (hg : ∀ rest2, c = '\r' → rest = '\n' :: rest2 → False)
    (l : List Char) (ls : List (List Char)) (hsp : splitlinesL rest = l :: ls) :
    splitlinesL (c :: rest) = (c :: l) :: ls := by
  rw [splitlinesL.eq_3 c rest hg, if_neg hb, hsp]

theorem splitlinesL_eq_nil_iff (cs : List Char) : splitlinesL cs = [] ↔ cs = [] := by
  induction cs using splitlinesL.induct with
  | case1 => simp [splitlinesL.eq_1]
  | case2 rest ih => rw [splitlinesL.eq_2]; simp
  | case3 c rest hg hb ih => rw [splitlinesL_cons_break hb rest hg]; simp
  | case4 c rest hg hb hsp ih => rw [splitlinesL_cons_nil hb rest hg hsp]; simp
  | case5 c rest hg hb l ls hsp ih => rw [splitlinesL_cons_cons hb rest hg l ls hsp]; simp

theorem breakFree_of_mem_splitlinesL (cs : List Char) :
    ∀ l ∈ splitlinesL cs, ∀ c ∈ l, breakChar c = false := by
  induction cs using splitlinesL.induct with
  | case1 => simp [splitlinesL.eq_1]
  | case2 rest ih =>
    rw [splitlinesL.eq_2]
    intro l hl
    rcases List.mem_cons.mp hl with rfl | hl
    · intro d hd
      simp at hd
    · exact ih l hl
  | case3 c rest hg hb ih =>
    rw [splitlinesL_cons_break hb rest hg]
    intro l hl
    rcases List.mem_cons.mp hl with rfl | hl
    · intro d hd
      simp at hd
    · exact ih l hl
  | case4 c rest hg hb hsp ih =>
    rw [splitlinesL_cons_nil hb rest hg hsp]
    intro l hl
    rcases List.mem_cons.mp hl with rfl | hl
    · intro d hd
      rcases List.mem_cons.mp hd with rfl | hd
      · simpa using hb
      · simp at hd
    · simp at hl
  | case5 c rest hg hb l0 ls0 hsp ih =>
    rw [splitlinesL_cons_cons hb rest hg l0 ls0 hsp]
    intro l hl
    rcases List.mem_cons.mp hl with rfl | hl
    · intro d hd
      rcases List.mem_cons.mp hd with rfl | hd
      · simpa using hb
      · exact ih l0 (by rw [hsp]; exact List.mem_cons_self l0 ls0) d hd
    · exact ih l (by rw [hsp]; exact List.mem_cons_of_mem l0 hl)

theorem mem_of_mem_splitlinesL (cs : List Char) :
    ∀ l ∈ splitlinesL cs, ∀ c ∈ l, c ∈ cs := by
  induction cs using splitlinesL.induct with
  | case1 => simp [splitlinesL.eq_1]
  | case2 rest ih =>
    rw [splitlinesL.eq_2]
    intro l hl
    rcases List.mem_cons.mp hl with rfl | hl
    · intro d hd
      simp at hd
    · intro d hd
      exact List.mem_cons_of_mem _ (List.mem_cons_of_mem _ (ih l hl d hd))
  | case3 c rest hg hb ih =>
    rw [splitlinesL_cons_break hb rest hg]
    intro l hl
    rcases List.mem_cons.mp hl with rfl | hl
    · intro d hd
      simp at hd
    · intro d hd
      exact List.mem_cons_of_mem _ (ih l hl d hd)
  | case4 c rest hg hb hsp ih =>
    rw [splitlinesL_cons_nil hb rest hg hsp]
    intro l hl
    rcases List.mem_cons.mp hl with rfl | hl
    · intro d hd
      rcases List.mem_cons.mp hd with rfl | hd
      · exact List.mem_cons_self d rest
      · simp at hd
    · simp at hl
  | case5 c rest hg hb l0 ls0 hsp ih =>
    rw [splitlinesL_cons_cons hb rest hg l0 ls0 hsp]
    intro l hl
    rcases List.mem_cons.mp hl with rfl | hl
    · intro d hd
      rcases List.mem_cons.mp hd with rfl | hd
      · exact List.mem_cons_self d rest
      · exact List.mem_cons_of_mem _
          (ih l0 (by rw [hsp]; exact List.mem_cons_self l0 ls0) d hd)
    · intro d hd
      exact List.mem_cons_of_mem _
        (ih l (by rw [hsp]; exact List.mem_cons_of_mem l0 hl) d hd)

theorem splitlinesL_append_nl (l z : List Char) (h : ∀ c ∈ l, breakChar c = false) :
    splitlinesL (l ++ '\n' :: z) = l :: splitlinesL z := by
  induction l with
  | nil =>
    show splitlinesL ('\n' :: z) = [] :: splitlinesL z
    exact splitlinesL_cons_break (by decide) z
      (by intro r2 h1 _; exact absurd h1 (by decide))
  | cons c t ih =>
    have hc : breakChar c = false := h c (List.mem_cons_self c t)
    have hcr : c ≠ '\r' := fun he => by rw [he] at hc; cases hc
    have ih2 := ih (fun d hd => h d (List.mem_cons_of_mem c hd))
    show splitlinesL (c :: (t ++ '\n' :: z)) = (c :: t) :: splitlinesL z
    exact splitlinesL_cons_cons (by simp [hc]) _ (fun r2 h1 _ => hcr h1) _ _ ih2

theorem splitlinesL_breakFree (l : List Char) (h : ∀ c ∈ l, breakChar c = false)
    (hne : l ≠ []) : splitlinesL l = [l] := by
  induction l with
  | nil => exact absurd rfl hne
  | cons c t ih =>
    have hc : breakChar c = false := h c (List.mem_cons_self c t)
    have hcr : c ≠ '\r' := fun he => by rw [he] at hc; cases hc
    rcases t with _ | ⟨c2, t2⟩
    · exact splitlinesL_cons_nil (by simp [hc]) [] (fun r2 h1 _ => hcr h1) rfl
    · exact splitlinesL_cons_cons (by simp [hc]) _ (fun r2 h1 _ => hcr h1) _ _
        (ih (fun d hd => h d (List.mem_cons_of_mem c hd)) (by simp))

/-! ### Helper lemmas: line-level effect of stripping -/

theorem ws_of_break {c : Char} (h : breakChar c = true) : wsChar c = true := by
  simp [wsChar, h]

theorem rstripLines_cons_nil {rest : List (List Char)} (h : rstripLines rest = [])
    (l : List Char) :
    rstripLines (l :: rest) = if rstripL l = [] then [] else [rstripL l] := by
  simp only [rstripLines, h]

theorem rstripLines_cons_cons {rest : List (List Char)} {r0 : List Char}
    {rs : List (List Char)} (h : rstripLines rest = r0 :: rs) (l : List Char) :
    rstripLines (l :: rest) = l :: r0 :: rs := by
  simp only [rstripLines, h]

theorem lstripLines_cons_nil (l : List Char) (rest : List (List Char))
    (h : lstripL l = []) :
    lstripLines (l :: rest) = lstripLines rest := by
  simp only [lstripLines, h, if_pos]

theorem lstripLines_cons_cons (l : List Char) (rest : List (List Char))
    (h : lstripL l ≠ []) :
    lstripLines (l :: rest) = lstripL l :: rest := by
  simp only [lstripLines, if_neg h]

theorem rstripLines_eq_nil_iff (ls : List (List Char)) :
    rstripLines ls = [] ↔ ∀ l ∈ ls, ∀ c ∈ l, wsChar c := by
  induction ls with
  | nil => simp [rstripLines]
  | cons l rest ih =>
    rcases h : rstripLines rest with _ | ⟨r0, rs⟩
    · rw [rstripLines_cons_nil h l]
      constructor
      · intro hif l' hl'
        rcases List.mem_cons.mp hl' with heq | hl'
        · subst heq
          by_cases hr : rstripL l' = []
          · exact (rstripL_eq_nil_iff l').mp hr
          · rw [if_neg hr] at hif
            cases hif
        · exact (ih.mp h) l' hl'
      · intro hall
        rw [if_pos ((rstripL_eq_nil_iff l).mpr (hall l (List.mem_cons_self l rest)))]
    · rw [rstripLines_cons_cons h l]
      constructor
      · intro hif
        cases hif
      · intro hall
        exfalso
        have : rstripLines rest = [] := ih.mpr (fun l' hl' => hall l' (List.mem_cons_of_mem l hl'))
        rw [h] at this
        cases this

theorem rstripLines_getLast_ne_nil (ls : List (List Char)) :
    ∀ l', (rstripLines ls).getLast? = some l' → l' ≠ [] := by
  induction ls with
  | nil => intro l' h; simp [rstripLines] at h
  | cons l rest ih =>
    rcases h : rstripLines rest with _ | ⟨r0, rs⟩
    · rw [rstripLines_cons_nil h l]
      by_cases hr : rstripL l = []
      · rw [if_pos hr]
        intro l' hl'
        simp at hl'
      · rw [if_neg hr]
        intro l' hl'
        simp at hl'
        rw [← hl']
        exact hr
    · rw [rstripLines_cons_cons h l]
      intro l' hl'
      rw [List.getLast?_cons_cons] at hl'
      exact ih l' (by rw [h]; exact hl')

theorem lstripLines_getLast_ne_nil (ls : List (List Char))
    (h : ∀ l', ls.getLast? = some l' → l' ≠ []) :
    ∀ l', (lstripLines ls).getLast? = some l' → l' ≠ [] := by
  induction ls with
  | nil => intro l' hl'; simp [lstripLines] at hl'
  | cons l rest ih =>
    by_cases hstr : lstripL l = []
    · rw [lstripLines_cons_nil _ rest hstr]
      rcases rest with _ | ⟨r0, rs⟩
      · intro l' hl'
        simp [lstripLines] at hl'
      · exact ih (fun l' hl' => h l' (by rw [List.getLast?_cons_cons]; exact hl'))
    · rw [lstripLines_cons_cons _ rest hstr]
      rcases rest with _ | ⟨r0, rs⟩
      · intro l' hl'
        simp at hl'
        rw [← hl']
        exact hstr
      · intro l' hl'
        rw [List.getLast?_cons_cons] at hl'
        exact h l' (by rw [List.getLast?_cons_cons]; exact hl')

theorem mem_of_mem_lstripL {c : Char} {l : List Char} (h : c ∈ lstripL l) : c ∈ l :=
  (List.dropWhile_sublist wsChar).subset h

theorem mem_of_mem_rstripL {c : Char} {l : List Char} (h : c ∈ rstripL l) : c ∈ l := by
  unfold rstripL at h
  rw [List.mem_reverse] at h
  rw [← List.mem_reverse]
  exact (List.dropWhile_sublist wsChar).subset h

theorem mem_lstripLines (ls : List (List Char)) :
    ∀ l' ∈ lstripLines ls, ∃ l ∈ ls, stripL l' = stripL l ∧ ∀ c ∈ l', c ∈ l := by
  induction ls with
  | nil => simp [lstripLines]
  | cons l rest ih =>
    by_cases hstr : lstripL l = []
    · rw [lstripLines_cons_nil _ rest hstr]
      intro l' hl'
      obtain ⟨l0, hl0, he, hsub⟩ := ih l' hl'
      exact ⟨l0, List.mem_cons_of_mem l hl0, he, hsub⟩
    · rw [lstripLines_cons_cons _ rest hstr]
      intro l' hl'
      rcases List.mem_cons.mp hl' with heq | hl'
      · subst heq
        exact ⟨l, List.mem_cons_self l rest, stripL_lstripL l, fun c hc => mem_of_mem_lstripL hc⟩
      · exact ⟨l', List.mem_cons_of_mem l hl', rfl, fun c hc => hc⟩

theorem mem_rstripLines (ls : List (List Char)) :
    ∀ l' ∈ rstripLines ls, ∃ l ∈ ls, stripL l' = stripL l ∧ ∀ c ∈ l', c ∈ l := by
  induction ls with
  | nil => simp [rstripLines]
  | cons l rest ih =>
    rcases h : rstripLines rest with _ | ⟨r0, rs⟩
    · rw [rstripLines_cons_nil h l]
      by_cases hr : rstripL l = []
      · rw [if_pos hr]
        intro l' hl'
        simp at hl'
      · rw [if_neg hr]
        intro l' hl'
        rw [List.mem_singleton] at hl'
        subst hl'
        exact ⟨l, List.mem_cons_self l rest, stripL_rstripL l, fun c hc => mem_of_mem_rstripL hc⟩
    · rw [rstripLines_cons_cons h l]
      intro l' hl'
      rcases List.mem_cons.mp hl' with heq | hl'
      · subst heq
        exact ⟨l', List.mem_cons_self l' rest, rfl, fun c hc => hc⟩
      · obtain ⟨l0, hl0, he, hsub⟩ := ih l' (by rw [h]; exact hl')
        exact ⟨l0, List.mem_cons_of_mem l hl0, he, hsub⟩

/-- Decomposition: a list is its right-strip followed by a whitespace tail. -/
theorem rstripL_decomp (cs : List Char) :
    ∃ tws, cs = rstripL cs ++ tws ∧ ∀ c ∈ tws, wsChar c := by
  refine ⟨(cs.reverse.takeWhile wsChar).reverse, ?_, ?_⟩
  · conv_lhs => rw [← List.reverse_reverse cs, ← List.takeWhile_append_dropWhile wsChar cs.reverse]
    rw [List.reverse_append]
    rfl
  · intro c hc
    rw [List.mem_reverse] at hc
    exact List.mem_takeWhile_imp hc

/-- Every character of a text is a line-break character or belongs to one of
its lines. -/
theorem chars_cover (cs : List Char) :
    ∀ c ∈ cs, breakChar c = true ∨ ∃ l ∈ splitlinesL cs, c ∈ l := by
  induction cs using splitlinesL.induct with
  | case1 => simp
  | case2 rest ih =>
    rw [splitlinesL.eq_2]
    intro c hc
    rcases List.mem_cons.mp hc with rfl | hc
    · left; decide
    · rcases List.mem_cons.mp hc with rfl | hc
      · left; decide
      · rcases ih c hc with hb | ⟨l, hl, hcl⟩
        · left; exact hb
        · right; exact ⟨l, List.mem_cons_of_mem [] hl, hcl⟩
  | case3 c0 rest hg hb ih =>
    rw [splitlinesL_cons_break hb rest hg]
    intro c hc
    rcases List.mem_cons.mp hc with rfl | hc
    · left; exact hb
    · rcases ih c hc with hb2 | ⟨l, hl, hcl⟩
      · left; exact hb2
      · right; exact ⟨l, List.mem_cons_of_mem [] hl, hcl⟩
  | case4 c0 rest hg hb hsp ih =>
    rw [splitlinesL_cons_nil hb rest hg hsp]
    intro c hc
    rcases List.mem_cons.mp hc with rfl | hc
    · right; exact ⟨[c], List.mem_singleton.mpr rfl, List.mem_singleton.mpr rfl⟩
    · rw [(splitlinesL_eq_nil_iff rest).mp hsp] at hc
      simp at hc
  | case5 c0 rest hg hb l0 ls0 hsp ih =>
    rw [splitlinesL_cons_cons hb rest hg l0 ls0 hsp]
    intro c hc
    rcases List.mem_cons.mp hc with rfl | hc
    · right
      exact ⟨c :: l0, List.mem_cons_self _ _, List.mem_cons_self c l0⟩
    · rcases ih c hc with hb2 | ⟨l, hl, hcl⟩
      · left; exact hb2
      · rw [hsp] at hl
        rcases List.mem_cons.mp hl with rfl | hl
        · right
          exact ⟨c0 :: l, List.mem_cons_self _ _, List.mem_cons_of_mem c0 hcl⟩
        · right
          exact ⟨l, List.mem_cons_of_mem _ hl, hcl⟩

theorem ws_of_lines_ws (cs : List Char)
    (h : ∀ l ∈ splitlinesL cs, ∀ c ∈ l, wsChar c) : ∀ c ∈ cs, wsChar c := by
  intro c hc
  rcases chars_cover cs c hc with hb | ⟨l, hl, hcl⟩
  · exact ws_of_break hb
  · exact h l hl c hcl

theorem eqA (cs : List Char) :
    splitlinesL (lstripL cs) = lstripLines (splitlinesL cs) := by
  induction cs using splitlinesL.induct with
  | case1 => simp [splitlinesL.eq_1, lstripLines, lstripL]
  | case2 rest ih =>
    rw [splitlinesL.eq_2]
    rw [lstripL_cons_ws (by decide), lstripL_cons_ws (by decide), ih,
      lstripLines_cons_nil [] _ rfl]
  | case3 c rest hg hb ih =>
    rw [splitlinesL_cons_break hb rest hg, lstripL_cons_ws (ws_of_break hb), ih,
      lstripLines_cons_nil [] _ rfl]
  | case4 c rest hg hb hsp ih =>
    have hrest : rest = [] := (splitlinesL_eq_nil_iff rest).mp hsp
    subst hrest
    rw [splitlinesL_cons_nil hb [] hg rfl]
    by_cases hw : wsChar c
    · rw [lstripL_cons_ws hw]
      rw [lstripLines_cons_nil _ [] (by rw [lstripL_cons_ws hw]; rfl)]
      simp [splitlinesL.eq_1, lstripL, lstripLines]
    · rw [lstripL_cons_not_ws hw, splitlinesL_cons_nil hb [] hg rfl,
        lstripLines_cons_cons _ [] (by rw [lstripL_cons_not_ws hw]; simp),
        lstripL_cons_not_ws hw]
  | case5 c rest hg hb l0 ls0 hsp ih =>
    rw [splitlinesL_cons_cons hb rest hg l0 ls0 hsp]
    by_cases hw : wsChar c
    · rw [lstripL_cons_ws hw, ih, hsp]
      by_cases h0 : lstripL l0 = []
      · rw [lstripLines_cons_nil _ ls0 h0,
          lstripLines_cons_nil _ ls0 (by rw [lstripL_cons_ws hw]; exact h0)]
      · rw [lstripLines_cons_cons _ ls0 h0,
          lstripLines_cons_cons _ ls0 (by rw [lstripL_cons_ws hw]; exact h0),
          lstripL_cons_ws hw]
    · rw [lstripL_cons_not_ws hw, splitlinesL_cons_cons hb rest hg l0 ls0 hsp,
        lstripLines_cons_cons _ ls0 (by rw [lstripL_cons_not_ws hw]; simp),
        lstripL_cons_not_ws hw]

theorem rstripL_nil : rstripL [] = [] := rfl

theorem rstripLines_nil : rstripLines [] = [] := rfl

theorem rstripLines_lines_eq_nil_iff (cs : List Char) :
    rstripLines (splitlinesL cs) = [] ↔ rstripL cs = [] := by
  rw [rstripLines_eq_nil_iff, rstripL_eq_nil_iff]
  constructor
  · exact ws_of_lines_ws cs
  · intro h l hl c hc
    exact h c (mem_of_mem_splitlinesL cs l hl c hc)

theorem eqB (cs : List Char) :
    splitlinesL (rstripL cs) = rstripLines (splitlinesL cs) := by
  induction cs using splitlinesL.induct with
  | case1 => simp [splitlinesL.eq_1, rstripLines, rstripL]
  | case2 rest ih =>
    rw [splitlinesL.eq_2]
    by_cases h : rstripL rest = []
    · have h1 : rstripL ('\n' :: rest) = [] := by
        rw [rstripL_cons, if_pos h, if_pos (by decide)]
      have h2 : rstripL ('\r' :: '\n' :: rest) = [] := by
        rw [rstripL_cons, if_pos h1, if_pos (by decide)]
      rw [h2, splitlinesL.eq_1,
        rstripLines_cons_nil ((rstripLines_lines_eq_nil_iff rest).mpr h) [],
        if_pos rstripL_nil]
    · have h1 : rstripL ('\n' :: rest) = '\n' :: rstripL rest := by
        rw [rstripL_cons, if_neg h]
      have h2 : rstripL ('\r' :: '\n' :: rest) = '\r' :: '\n' :: rstripL rest := by
        rw [rstripL_cons, h1, if_neg (by simp)]
      rw [h2, splitlinesL.eq_2, ih]
      have hne : rstripLines (splitlinesL rest) ≠ [] :=
        fun he => h ((rstripLines_lines_eq_nil_iff rest).mp he)
      rcases hr : rstripLines (splitlinesL rest) with _ | ⟨r0, rs⟩
      · exact absurd hr hne
      · rw [rstripLines_cons_cons hr []]
  | case3 c rest hg hb ih =>
    rw [splitlinesL_cons_break hb rest hg]
    by_cases h : rstripL rest = []
    · have h2 : rstripL (c :: rest) = [] := by
        rw [rstripL_cons, if_pos h, if_pos (ws_of_break hb)]
      rw [h2, splitlinesL.eq_1,
        rstripLines_cons_nil ((rstripLines_lines_eq_nil_iff rest).mpr h) [],
        if_pos rstripL_nil]
    · have h2 : rstripL (c :: rest) = c :: rstripL rest := by
        rw [rstripL_cons, if_neg h]
      have hg2 : ∀ r2, c = '\r' → rstripL rest = '\n' :: r2 → False := by
        intro r2 hc1 hc2
        obtain ⟨tws, hts, _⟩ := rstripL_decomp rest
        rw [hc2] at hts
        exact hg (r2 ++ tws) hc1 (by rw [hts]; simp)
      rw [h2, splitlinesL_cons_break hb (rstripL rest) hg2, ih]
      have hne : rstripLines (splitlinesL rest) ≠ [] :=
        fun he => h ((rstripLines_lines_eq_nil_iff rest).mp he)
      rcases hr : rstripLines (splitlinesL rest) with _ | ⟨r0, rs⟩
      · exact absurd hr hne
      · rw [rstripLines_cons_cons hr []]
  | case4 c rest hg hb hsp ih =>
    have hrest : rest = [] := (splitlinesL_eq_nil_iff rest).mp hsp
    subst hrest
    rw [splitlinesL_cons_nil hb [] hg rfl]
    by_cases hw : wsChar c
    · have h2 : rstripL [c] = [] := by
        rw [rstripL_cons, if_pos rstripL_nil, if_pos hw]
      rw [h2, splitlinesL.eq_1, rstripLines_cons_nil rstripLines_nil [c], if_pos h2]
    · have h2 : rstripL [c] = [c] := by
        rw [rstripL_cons, if_pos rstripL_nil, if_neg hw]
      rw [h2, splitlinesL_cons_nil hb [] hg rfl, rstripLines_cons_nil rstripLines_nil [c],
        if_neg (by rw [h2]; simp), h2]
  | case5 c rest hg hb l0 ls0 hsp ih =>
    rw [splitlinesL_cons_cons hb rest hg l0 ls0 hsp]
    by_cases h : rstripL rest = []
    · have hall : ∀ c' ∈ rest, wsChar c' := (rstripL_eq_nil_iff rest).mp h
      have hrl0 : rstripL l0 = [] := (rstripL_eq_nil_iff l0).mpr
        (fun c' hc' => hall c' (mem_of_mem_splitlinesL rest l0
          (by rw [hsp]; exact List.mem_cons_self _ _) c' hc'))
      have hls0 : rstripLines ls0 = [] := (rstripLines_eq_nil_iff ls0).mpr
        (fun l hl c' hc' => hall c' (mem_of_mem_splitlinesL rest l
          (by rw [hsp]; exact List.mem_cons_of_mem _ hl) c' hc'))
      by_cases hw : wsChar c
      · have h2 : rstripL (c :: rest) = [] := by
          rw [rstripL_cons, if_pos h, if_pos hw]
        have h3 : rstripL (c :: l0) = [] := by
          rw [rstripL_cons, if_pos hrl0, if_pos hw]
        rw [h2, splitlinesL.eq_1, rstripLines_cons_nil hls0 (c :: l0), if_pos h3]
      · have h2 : rstripL (c :: rest) = [c] := by
          rw [rstripL_cons, if_pos h, if_neg hw]
        have h3 : rstripL (c :: l0) = [c] := by
          rw [rstripL_cons, if_pos hrl0, if_neg hw]
        rw [h2, splitlinesL_cons_nil hb [] (fun r2 _ he => List.noConfusion he) rfl,
          rstripLines_cons_nil hls0 (c :: l0), if_neg (by rw [h3]; simp), h3]
    · have h2 : rstripL (c :: rest) = c :: rstripL rest := by
        rw [rstripL_cons, if_neg h]
      have hg2 : ∀ r2, c = '\r' → rstripL rest = '\n' :: r2 → False := by
        intro r2 hc1 _
        rw [hc1] at hb
        exact hb (by decide)
      rw [h2]
      rcases hr : rstripLines ls0 with _ | ⟨r0, rs⟩
      · by_cases hrl0 : rstripL l0 = []
        · exfalso
          apply h
          apply (rstripLines_lines_eq_nil_iff rest).mp
          rw [hsp, rstripLines_cons_nil hr l0, if_pos hrl0]
        · have hlines : splitlinesL (rstripL rest) = [rstripL l0] := by
            rw [ih, hsp, rstripLines_cons_nil hr l0, if_neg hrl0]
          have hcl0 : rstripL (c :: l0) = c :: rstripL l0 := by
            rw [rstripL_cons, if_neg hrl0]
          rw [splitlinesL_cons_cons hb (rstripL rest) hg2 (rstripL l0) [] hlines,
            rstripLines_cons_nil hr (c :: l0), if_neg (by rw [hcl0]; simp), hcl0]
      · have hlines : splitlinesL (rstripL rest) = l0 :: r0 :: rs := by
          rw [ih, hsp, rstripLines_cons_cons hr l0]
        rw [splitlinesL_cons_cons hb (rstripL rest) hg2 l0 (r0 :: rs) hlines,
          rstripLines_cons_cons hr (c :: l0)]

/-! ### Helper lemmas: joining lines -/

theorem joinL_cons (l : List Char) (ls : List (List Char)) (h : ls ≠ []) :
    joinL (l :: ls) = l ++ '\n' :: joinL ls := by
  rcases ls with _ | ⟨l2, rest⟩
  · exact absurd rfl h
  · rfl

theorem joinL_eq_nil_iff (ls : List (List Char)) :
    joinL ls = [] ↔ ls = [] ∨ ls = [[]] := by
  rcases ls with _ | ⟨l, ls2⟩
  · simp [joinL]
  · rcases ls2 with _ | ⟨l2, rest⟩
    · show joinL [l] = [] ↔ _
      simp [joinL]
    · rw [joinL_cons l (l2 :: rest) (by simp)]
      simp

theorem rstripL_joinL (ls : List (List Char)) :
    rstripL (joinL ls) = joinL (rstripLines ls) := by
  induction ls with
  | nil => rfl
  | cons l rest ih =>
    rcases rest with _ | ⟨l2, rest2⟩
    · show rstripL l = joinL (rstripLines [l])
      rw [rstripLines_cons_nil rstripLines_nil l]
      by_cases h : rstripL l = []
      · rw [if_pos h, h]
        rfl
      · rw [if_neg h]
        rfl
    · rw [joinL_cons l (l2 :: rest2) (by simp), rstrip_append]
      by_cases h : rstripL (joinL (l2 :: rest2)) = []
      · have hrl2 : rstripLines (l2 :: rest2) = [] := by
          have hj : joinL (rstripLines (l2 :: rest2)) = [] := by rw [← ih, h]
          rcases (joinL_eq_nil_iff _).mp hj with hc | hc
          · exact hc
          · exact absurd hc.symm.symm
              (fun he => rstripLines_getLast_ne_nil (l2 :: rest2) []
                (by rw [he]; rfl) rfl)
        have hin : rstripL ('\n' :: joinL (l2 :: rest2)) = [] := by
          rw [rstripL_cons, if_pos h, if_pos (by decide)]
        rw [if_pos hin, rstripLines_cons_nil hrl2 l]
        by_cases hl : rstripL l = []
        · rw [if_pos hl, hl]
          rfl
        · rw [if_neg hl]
          rfl
      · have hin : rstripL ('\n' :: joinL (l2 :: rest2)) =
            '\n' :: rstripL (joinL (l2 :: rest2)) := by
          rw [rstripL_cons, if_neg h]
        rw [if_neg (by rw [hin]; simp), hin, ih]
        have hne : rstripLines (l2 :: rest2) ≠ [] := fun he => h (by rw [ih, he]; rfl)
        rcases hrr : rstripLines (l2 :: rest2) with _ | ⟨r0, rs⟩
        · exact absurd hrr hne
        · rw [rstripLines_cons_cons hrr l, joinL_cons l (r0 :: rs) (by simp)]

theorem lstripL_joinL (ls : List (List Char)) :
    lstripL (joinL ls) = joinL (lstripLines ls) := by
  induction ls with
  | nil => rfl
  | cons l rest ih =>
    rcases rest with _ | ⟨l2, rest2⟩
    · show lstripL l = joinL (lstripLines [l])
      by_cases h : lstripL l = []
      · rw [lstripLines_cons_nil l [] h, h]
        rfl
      · rw [lstripLines_cons_cons l [] h]
        rfl
    · rw [joinL_cons l (l2 :: rest2) (by simp), lstrip_append]
      by_cases h : lstripL l = []
      · rw [if_pos h, lstripLines_cons_nil l _ h, lstripL_cons_ws (by decide), ih]
      · rw [if_neg h, lstripLines_cons_cons l _ h, joinL_cons _ (l2 :: rest2) (by simp)]

theorem split_strip_eq (cs : List Char) :
    splitlinesL (stripL cs) = rstripLines (lstripLines (splitlinesL cs)) := by
  show splitlinesL (rstripL (lstripL cs)) = _
  rw [eqB, eqA]

theorem strip_join_split_strip (cs : List Char) :
    stripL (joinL (splitlinesL (stripL cs))) = stripL (joinL (splitlinesL cs)) := by
  rw [split_strip_eq, ← rstripL_joinL, stripL_rstripL, ← lstripL_joinL, stripL_lstripL]

theorem splitlinesL_joinL (ls : List (List Char))
    (hbf : ∀ l ∈ ls, ∀ c ∈ l, breakChar c = false)
    (hlast : ∀ l2, ls.getLast? = some l2 → l2 ≠ []) :
    splitlinesL (joinL ls) = ls := by
  induction ls with
  | nil => rfl
  | cons l rest ih =>
    rcases rest with _ | ⟨l2, rest2⟩
    · have hl : l ≠ [] := hlast l (by simp)
      show splitlinesL (joinL [l]) = [l]
      exact splitlinesL_breakFree l (hbf l (List.mem_cons_self l [])) hl
    · rw [joinL_cons l (l2 :: rest2) (by simp),
        splitlinesL_append_nl l _ (hbf l (List.mem_cons_self _ _)),
        ih (fun m hm => hbf m (List.mem_cons_of_mem l hm))
          (fun m hm => hlast m (by rw [List.getLast?_cons_cons]; exact hm))]

/-! ### Helper lemmas: the sanitizer -/

theorem headThinkingL_eq (cs l0 : List Char) (ls0 : List (List Char))
    (hsp : splitlinesL cs = l0 :: ls0) : headThinkingL cs = startsThinking l0 := by
  unfold headThinkingL
  rw [hsp]

theorem headThinkingL_nil_lines (cs : List Char) (hsp : splitlinesL cs = []) :
    headThinkingL cs = false := by
  unfold headThinkingL
  rw [hsp]

theorem startsThinking_stripL (l : List Char) :
    startsThinking (stripL l) = startsThinking l := by
  unfold startsThinking
  rw [stripL_idem]

theorem cleanL_eq_nil (cs : List Char) (h : stripL cs = []) : cleanL cs = [] := by
  unfold cleanL
  rw [if_pos h]
  exact h

theorem cleanL_eq_thinking (cs : List Char) (h1 : ¬ stripL cs = [])
    (h2 : headThinkingL (stripL cs) = true) :
    cleanL cs =
      stripL (joinL (List.filter keepLine (afterDone (splitlinesL (stripL cs))))) := by
  unfold cleanL
  rw [if_neg h1, if_pos h2]

theorem cleanL_eq_no_thinking (cs : List Char) (h1 : ¬ stripL cs = [])
    (h2 : headThinkingL (stripL cs) = false) :
    cleanL cs = stripL (joinL (List.filter keepLine (splitlinesL (stripL cs)))) := by
  unfold cleanL
  rw [if_neg h1, if_neg (by rw [h2]; exact Bool.false_ne_true)]

theorem afterDone_subset (ls : List (List Char)) : ∀ l ∈ afterDone ls, l ∈ ls := by
  induction ls with
  | nil => simp [afterDone]
  | cons m rest ih =>
    by_cases hc : containsDone m = true
    · simp only [afterDone, if_pos hc]
      intro l hl
      exact List.mem_cons_of_mem m hl
    · simp only [afterDone, if_neg hc]
      intro l hl
      exact List.mem_cons_of_mem m (ih l hl)

theorem afterDone_rstripLines (ls : List (List Char)) :
    afterDone (rstripLines ls) = rstripLines (afterDone ls) := by
  induction ls with
  | nil => rfl
  | cons l rest ih =>
    by_cases hc : containsDone l = true
    · have ha : afterDone (l :: rest) = rest := by simp only [afterDone, if_pos hc]
      rcases hr : rstripLines rest with _ | ⟨r0, rs⟩
      · rw [rstripLines_cons_nil hr l, ha, hr]
        have hrl : ¬ rstripL l = [] := by
          rw [rstripL_eq_nil_iff]
          exact not_ws_of_containsDone l hc
        rw [if_neg hrl]
        have hcd : containsDone (rstripL l) = true := by
          rw [containsDone_rstripL]
          exact hc
        simp only [afterDone, if_pos hcd]
      · rw [rstripLines_cons_cons hr l, ha, hr]
        simp only [afterDone, if_pos hc]
    · have hcf : afterDone (l :: rest) = afterDone rest := by
        simp only [afterDone, if_neg hc]
      rcases hr : rstripLines rest with _ | ⟨r0, rs⟩
      · rw [rstripLines_cons_nil hr l, hcf, ← ih, hr]
        by_cases hrl : rstripL l = []
        · rw [if_pos hrl]
        · rw [if_neg hrl]
          have hcd : ¬ containsDone (rstripL l) = true := by
            rw [containsDone_rstripL]
            exact hc
          simp only [afterDone, if_neg hcd]
      · rw [rstripLines_cons_cons hr l, hcf, ← ih, hr]
        simp only [afterDone, if_neg hc]

theorem rstripLines_cons_congr {A B : List (List Char)}
    (h : rstripLines A = rstripLines B) (l : List Char) :
    rstripLines (l :: A) = rstripLines (l :: B) := by
  simp only [rstripLines, h]

theorem rstripLines_filter_rstripLines (w : List (List Char)) :
    rstripLines (List.filter keepLine (rstripLines w)) =
      rstripLines (List.filter keepLine w) := by
  induction w with
  | nil => rfl
  | cons l rest ih =>
    rcases hr : rstripLines rest with _ | ⟨r0, rs⟩
    · have hall : ∀ m ∈ rest, ∀ c ∈ m, wsChar c := (rstripLines_eq_nil_iff rest).mp hr
      have hfr : rstripLines (List.filter keepLine rest) = [] := by
        rw [List.filter_eq_self.mpr (fun m hm => keepLine_of_ws m (hall m hm)), hr]
      rw [rstripLines_cons_nil hr l]
      by_cases hk : keepLine l = true
      · rw [List.filter_cons, if_pos hk, rstripLines_cons_nil hfr l]
        by_cases hrl : rstripL l = []
        · rw [if_pos hrl]
          rfl
        · rw [if_neg hrl, List.filter_cons, if_pos (by rw [keepLine_rstripL]; exact hk),
            rstripLines_cons_nil (show rstripLines (List.filter keepLine []) = [] from rfl)
              (rstripL l),
            if_neg (by rw [rstripL_idem]; exact hrl), rstripL_idem]
      · rw [List.filter_cons, if_neg hk, hfr]
        by_cases hrl : rstripL l = []
        · rw [if_pos hrl]
          rfl
        · rw [if_neg hrl, List.filter_cons, if_neg (by rw [keepLine_rstripL]; exact hk)]
          rfl
    · rw [rstripLines_cons_cons hr l]
      have ih2 : rstripLines (List.filter keepLine (r0 :: rs)) =
          rstripLines (List.filter keepLine rest) := by
        rw [← hr]
        exact ih
      conv_lhs => rw [List.filter_cons]
      conv_rhs => rw [List.filter_cons]
      by_cases hk : keepLine l = true
      · rw [if_pos hk, if_pos hk]
        exact rstripLines_cons_congr ih2 l
      · rw [if_neg hk, if_neg hk]
        exact ih2

theorem strip_join_filter_rstripLines (w : List (List Char)) :
    stripL (joinL (List.filter keepLine (rstripLines w))) =
      stripL (joinL (List.filter keepLine w)) :=
  calc stripL (joinL (List.filter keepLine (rstripLines w)))
      = stripL (rstripL (joinL (List.filter keepLine (rstripLines w)))) :=
        (stripL_rstripL _).symm
    _ = stripL (joinL (rstripLines (List.filter keepLine (rstripLines w)))) := by
        rw [rstripL_joinL]
    _ = stripL (joinL (rstripLines (List.filter keepLine w))) := by
        rw [rstripLines_filter_rstripLines]
    _ = stripL (rstripL (joinL (List.filter keepLine w))) := by rw [rstripL_joinL]
    _ = stripL (joinL (List.filter keepLine w)) := stripL_rstripL _

theorem strip_join_filter_fix (w : List (List Char))
    (hbf : ∀ l ∈ w, ∀ c ∈ l, breakChar c = false)
    (hkeep : ∀ l ∈ w, keepLine l = true) :
    stripL (joinL (List.filter keepLine (splitlinesL (stripL (joinL w))))) =
      stripL (joinL w) := by
  have h1 : stripL (joinL w) = joinL (rstripLines (lstripLines w)) := by
    show rstripL (lstripL (joinL w)) = _
    rw [lstripL_joinL, rstripL_joinL]
  have hbu : ∀ l2 ∈ rstripLines (lstripLines w),
      (∀ c ∈ l2, breakChar c = false) ∧ keepLine l2 = true := by
    intro l2 hl2
    obtain ⟨m, hm, hsm, hsubm⟩ := mem_rstripLines (lstripLines w) l2 hl2
    obtain ⟨l, hl, hsl, hsubl⟩ := mem_lstripLines w m hm
    refine ⟨fun c hc => hbf l hl c (hsubl c (hsubm c hc)), ?_⟩
    have hkk : keepLine l2 = keepLine l := by
      unfold keepLine
      rw [hsm, hsl]
    rw [hkk]
    exact hkeep l hl
  have hsp : splitlinesL (joinL (rstripLines (lstripLines w))) =
      rstripLines (lstripLines w) :=
    splitlinesL_joinL _ (fun l hl => (hbu l hl).1)
      (rstripLines_getLast_ne_nil (lstripLines w))
  have hfu : List.filter keepLine (rstripLines (lstripLines w)) =
      rstripLines (lstripLines w) :=
    List.filter_eq_self.mpr (fun l hl => (hbu l hl).2)
  rw [h1, hsp, hfu, ← h1, stripL_idem]

theorem head_thinking_strip (cs : List Char) (h : headThinkingL cs = true) :
    ¬ stripL cs = [] ∧ headThinkingL (stripL cs) = true := by
  rcases hsp : splitlinesL cs with _ | ⟨l0, ls0⟩
  · rw [headThinkingL_nil_lines cs hsp] at h
    cases h
  · have hst : startsThinking l0 = true := by
      rw [← headThinkingL_eq cs l0 ls0 hsp]
      exact h
    have hnw : ¬ ∀ c ∈ l0, wsChar c := not_ws_of_startsThinking l0 hst
    have hsub : ∀ c ∈ l0, c ∈ cs :=
      mem_of_mem_splitlinesL cs l0 (by rw [hsp]; exact List.mem_cons_self _ _)
    have hsnil : ¬ stripL cs = [] := by
      intro he
      exact hnw (fun c hc => (stripL_eq_nil_iff cs).mp he c (hsub c hc))
    have hl0 : lstripL l0 ≠ [] := by
      intro he
      exact hnw ((lstripL_eq_nil_iff l0).mp he)
    have hsl0 : ¬ rstripL (lstripL l0) = [] := by
      intro he
      exact hnw ((stripL_eq_nil_iff l0).mp he)
    refine ⟨hsnil, ?_⟩
    have hlines : splitlinesL (stripL cs) = rstripLines (lstripL l0 :: ls0) := by
      rw [split_strip_eq, hsp, lstripLines_cons_cons l0 ls0 hl0]
    rcases hr : rstripLines ls0 with _ | ⟨r0, rs⟩
    · have hthis : splitlinesL (stripL cs) = [rstripL (lstripL l0)] := by
        rw [hlines, rstripLines_cons_nil hr (lstripL l0), if_neg hsl0]
      rw [headThinkingL_eq (stripL cs) (rstripL (lstripL l0)) [] hthis]
      rw [show rstripL (lstripL l0) = stripL l0 from rfl, startsThinking_stripL]
      exact hst
    · rw [headThinkingL_eq (stripL cs) (lstripL l0) (r0 :: rs)
        (by rw [hlines, rstripLines_cons_cons hr (lstripL l0)]), startsThinking_lstripL]
      exact hst

theorem cleanL_eq_spec_of_thinking (cs : List Char) (h : headThinkingL cs = true) :
    cleanL cs = cleanSpecC6 cs := by
  obtain ⟨hraw, hth⟩ := head_thinking_strip cs h
  rw [cleanL_eq_thinking cs hraw hth]
  rcases hsp : splitlinesL cs with _ | ⟨l0, ls0⟩
  · rw [headThinkingL_nil_lines cs hsp] at h
    cases h
  · have hst : startsThinking l0 = true := by
      rw [← headThinkingL_eq cs l0 ls0 hsp]
      exact h
    have hnw : ¬ ∀ c ∈ l0, wsChar c := not_ws_of_startsThinking l0 hst
    have hl0 : lstripL l0 ≠ [] := by
      intro he
      exact hnw ((lstripL_eq_nil_iff l0).mp he)
    have hlines : splitlinesL (stripL cs) = rstripLines (lstripL l0 :: ls0) := by
      rw [split_strip_eq, hsp, lstripLines_cons_cons l0 ls0 hl0]
    have had : afterDone (lstripL l0 :: ls0) = afterDone (l0 :: ls0) := by
      simp only [afterDone, containsDone_lstripL]
    rw [hlines, afterDone_rstripLines, had, strip_join_filter_rstripLines]
    unfold cleanSpecC6
    rw [hsp]

theorem mem_joinL (ls : List (List Char)) :
    ∀ c ∈ joinL ls, c = '\n' ∨ ∃ l ∈ ls, c ∈ l := by
  induction ls with
  | nil => simp [joinL]
  | cons l rest ih =>
    rcases rest with _ | ⟨l2, rest2⟩
    · intro c hc
      exact Or.inr ⟨l, List.mem_cons_self l [], hc⟩
    · rw [joinL_cons l (l2 :: rest2) (by simp)]
      intro c hc
      rcases List.mem_append.mp hc with h1 | h1
      · exact Or.inr ⟨l, List.mem_cons_self _ _, h1⟩
      · rcases List.mem_cons.mp h1 with h2 | h2
        · exact Or.inl h2
        · rcases ih c h2 with h3 | ⟨m, hm, hcm⟩
          · exact Or.inl h3
          · exact Or.inr ⟨m, List.mem_cons_of_mem l hm, hcm⟩

theorem strip_join_lines_of_ws (cs : List Char) (h : ∀ c ∈ cs, wsChar c) :
    stripL (joinL (splitlinesL cs)) = [] := by
  rw [stripL_eq_nil_iff]
  intro c hc
  rcases mem_joinL (splitlinesL cs) c hc with h1 | ⟨l, hl, hcl⟩
  · rw [h1]
    decide
  · exact h c (mem_of_mem_splitlinesL cs l hl c hcl)

theorem cleanL_stripL_self (cs : List Char) : stripL (cleanL cs) = cleanL cs := by
  unfold cleanL
  by_cases h0 : stripL cs = []
  · rw [if_pos h0, h0]
    rfl
  · rw [if_neg h0]
    by_cases ht : headThinkingL (stripL cs) = true
    · rw [if_pos ht, stripL_idem]
    · rw [if_neg ht, stripL_idem]

theorem cleanL_idem_of_not_thinking (cs : List Char)
    (h : headThinkingL (cleanL cs) = false) :
    cleanL (cleanL cs) = cleanL cs := by
  by_cases h0 : stripL cs = []
  · rw [cleanL_eq_nil cs h0]
    decide
  · have hv : ∃ v, (∀ l ∈ v, ∀ c ∈ l, breakChar c = false) ∧
        cleanL cs = stripL (joinL (List.filter keepLine v)) := by
      by_cases ht : headThinkingL (stripL cs) = true
      · exact ⟨afterDone (splitlinesL (stripL cs)),
          fun l hl c hc =>
            breakFree_of_mem_splitlinesL (stripL cs) l (afterDone_subset _ l hl) c hc,
          cleanL_eq_thinking cs h0 ht⟩
      · exact ⟨splitlinesL (stripL cs),
          fun l hl c hc => breakFree_of_mem_splitlinesL (stripL cs) l hl c hc,
          cleanL_eq_no_thinking cs h0 (by rwa [Bool.not_eq_true] at ht)⟩
    obtain ⟨v, hbf, hcv⟩ := hv
    by_cases hy0 : stripL (cleanL cs) = []
    · rw [cleanL_eq_nil (cleanL cs) hy0, ← cleanL_stripL_self cs, hy0]
    · have hth : headThinkingL (stripL (cleanL cs)) = false := by
        rw [cleanL_stripL_self]
        exact h
      rw [cleanL_eq_no_thinking (cleanL cs) hy0 hth, cleanL_stripL_self, hcv]
      exact strip_join_filter_fix (List.filter keepLine v)
        (fun l hl => hbf l (List.mem_of_mem_filter hl))
        (fun l hl => List.of_mem_filter hl)

/-! ### Helper lemmas: the UTF-8 byte cap -/

theorem decode_nil (fuel : Nat) : decodeIgnoreAux fuel [] = [] := by
  cases fuel with
  | zero => rfl
  | succ f => rfl

theorem decode_step1 {b : Nat} (h : b < 128) (f : Nat) (t : List Nat) :
    decodeIgnoreAux (f + 1) (b :: t) = Char.ofNat b :: decodeIgnoreAux f t := by
  conv_lhs => unfold decodeIgnoreAux
  rw [if_pos h]

theorem decode_step2 {b1 b2 : Nat} (h1 : 192 ≤ b1) (h2 : b1 < 224)
    (hc : isContByte b2 = true) (f : Nat) (t : List Nat) :
    decodeIgnoreAux (f + 1) (b1 :: b2 :: t) =
      Char.ofNat ((b1 - 192) * 64 + (b2 - 128)) :: decodeIgnoreAux f t := by
  have ha : ¬ b1 < 128 := by omega
  have hb : (192 ≤ b1 && b1 < 224) = true := by
    simp only [Bool.and_eq_true, decide_eq_true_eq]
    exact ⟨h1, h2⟩
  conv_lhs => unfold decodeIgnoreAux
  rw [if_neg ha, if_pos hb]
  show (if isContByte b2 then
      Char.ofNat ((b1 - 192) * 64 + (b2 - 128)) :: decodeIgnoreAux f t
    else decodeIgnoreAux f (b2 :: t)) = _
  rw [if_pos hc]

theorem decode_step3 {b1 b2 b3 : Nat} (h1 : 224 ≤ b1) (h2 : b1 < 240)
    (hc2 : isContByte b2 = true) (hc3 : isContByte b3 = true) (f : Nat) (t : List Nat) :
    decodeIgnoreAux (f + 1) (b1 :: b2 :: b3 :: t) =
      Char.ofNat ((b1 - 224) * 4096 + (b2 - 128) * 64 + (b3 - 128)) ::
        decodeIgnoreAux f t := by
  have ha : ¬ b1 < 128 := by omega
  have hb : ¬ (192 ≤ b1 && b1 < 224) = true := by
    simp only [Bool.and_eq_true, decide_eq_true_eq]
    omega
  have hb2 : (224 ≤ b1 && b1 < 240) = true := by
    simp only [Bool.and_eq_true, decide_eq_true_eq]
    exact ⟨h1, h2⟩
  conv_lhs => unfold decodeIgnoreAux
  rw [if_neg ha, if_neg hb, if_pos hb2]
  show (if isContByte b2 && isContByte b3 then
      Char.ofNat ((b1 - 224) * 4096 + (b2 - 128) * 64 + (b3 - 128)) :: decodeIgnoreAux f t
    else if !(isContByte b2) then decodeIgnoreAux f (b2 :: b3 :: t)
    else decodeIgnoreAux f (b3 :: t)) = _
  rw [if_pos (by rw [hc2, hc3]; rfl)]

theorem decode_step4 {b1 b2 b3 b4 : Nat} (h1 : 240 ≤ b1) (h2 : b1 < 248)
    (hc2 : isContByte b2 = true) (hc3 : isContByte b3 = true)
    (hc4 : isContByte b4 = true) (f : Nat) (t : List Nat) :
    decodeIgnoreAux (f + 1) (b1 :: b2 :: b3 :: b4 :: t) =
      Char.ofNat ((b1 - 240) * 262144 + (b2 - 128) * 4096 + (b3 - 128) * 64 + (b4 - 128)) ::
        decodeIgnoreAux f t := by
  have ha : ¬ b1 < 128 := by omega
  have hb : ¬ (192 ≤ b1 && b1 < 224) = true := by
    simp only [Bool.and_eq_true, decide_eq_true_eq]
    omega
  have hb2 : ¬ (224 ≤ b1 && b1 < 240) = true := by
    simp only [Bool.and_eq_true, decide_eq_true_eq]
    omega
  have hb3 : (240 ≤ b1 && b1 < 248) = true := by
    simp only [Bool.and_eq_true, decide_eq_true_eq]
    exact ⟨h1, h2⟩
  conv_lhs => unfold decodeIgnoreAux
  rw [if_neg ha, if_neg hb, if_neg hb2, if_pos hb3]
  show (if isContByte b2 && isContByte b3 && isContByte b4 then
      Char.ofNat ((b1 - 240) * 262144 + (b2 - 128) * 4096 + (b3 - 128) * 64 + (b4 - 128)) ::
        decodeIgnoreAux f t
    else if !(isContByte b2) then decodeIgnoreAux f (b2 :: b3 :: b4 :: t)
    else if !(isContByte b3) then decodeIgnoreAux f (b3 :: b4 :: t)
    else decodeIgnoreAux f (b4 :: t)) = _
  rw [if_pos (by rw [hc2, hc3, hc4]; rfl)]

theorem decode_tail2 {b1 : Nat} (h1 : 192 ≤ b1) (h2 : b1 < 224) (f : Nat) :
    decodeIgnoreAux (f + 1) [b1] = [] := by
  have ha : ¬ b1 < 128 := by omega
  have hb : (192 ≤ b1 && b1 < 224) = true := by
    simp only [Bool.and_eq_true, decide_eq_true_eq]
    exact ⟨h1, h2⟩
  conv_lhs => unfold decodeIgnoreAux
  rw [if_neg ha, if_pos hb]

theorem decode_tail3_one {b1 : Nat} (h1 : 224 ≤ b1) (h2 : b1 < 240) (f : Nat) :
    decodeIgnoreAux (f + 1) [b1] = [] := by
  have ha : ¬ b1 < 128 := by omega
  have hb : ¬ (192 ≤ b1 && b1 < 224) = true := by
    simp only [Bool.and_eq_true, decide_eq_true_eq]
    omega
  have hb2 : (224 ≤ b1 && b1 < 240) = true := by
    simp only [Bool.and_eq_true, decide_eq_true_eq]
    exact ⟨h1, h2⟩
  conv_lhs => unfold decodeIgnoreAux
  rw [if_neg ha, if_neg hb, if_pos hb2]

theorem decode_tail3_two {b1 b2 : Nat} (h1 : 224 ≤ b1) (h2 : b1 < 240)
    (hc2 : isContByte b2 = true) (f : Nat) :
    decodeIgnoreAux (f + 1) [b1, b2] = [] := by
  have ha : ¬ b1 < 128 := by omega
  have hb : ¬ (192 ≤ b1 && b1 < 224) = true := by
    simp only [Bool.and_eq_true, decide_eq_true_eq]
    omega
  have hb2 : (224 ≤ b1 && b1 < 240) = true := by
    simp only [Bool.and_eq_true, decide_eq_true_eq]
    exact ⟨h1, h2⟩
  conv_lhs => unfold decodeIgnoreAux
  rw [if_neg ha, if_neg hb, if_pos hb2]
  show (if isContByte b2 then [] else decodeIgnoreAux f [b2]) = _
  rw [if_pos hc2]

theorem decode_tail4_one {b1 : Nat} (h1 : 240 ≤ b1) (h2 : b1 < 248) (f : Nat) :
    decodeIgnoreAux (f + 1) [b1] = [] := by
  have ha : ¬ b1 < 128 := by omega
  have hb : ¬ (192 ≤ b1 && b1 < 224) = true := by
    simp only [Bool.and_eq_true, decide_eq_true_eq]
    omega
  have hb2 : ¬ (224 ≤ b1 && b1 < 240) = true := by
    simp only [Bool.and_eq_true, decide_eq_true_eq]
    omega
  have hb3 : (240 ≤ b1 && b1 < 248) = true := by
    simp only [Bool.and_eq_true, decide_eq_true_eq]
    exact ⟨h1, h2⟩
  conv_lhs => unfold decodeIgnoreAux
  rw [if_neg ha, if_neg hb, if_neg hb2, if_pos hb3]

theorem decode_tail4_two {b1 b2 : Nat} (h1 : 240 ≤ b1) (h2 : b1 < 248)
    (hc2 : isContByte b2 = true) (f : Nat) :
    decodeIgnoreAux (f + 1) [b1, b2] = [] := by
  have ha : ¬ b1 < 128 := by omega
  have hb : ¬ (192 ≤ b1 && b1 < 224) = true := by
    simp only [Bool.and_eq_true, decide_eq_true_eq]
    omega
  have hb2 : ¬ (224 ≤ b1 && b1 < 240) = true := by
    simp only [Bool.and_eq_true, decide_eq_true_eq]
    omega
  have hb3 : (240 ≤ b1 && b1 < 248) = true := by
    simp only [Bool.and_eq_true, decide_eq_true_eq]
    exact ⟨h1, h2⟩
  conv_lhs => unfold decodeIgnoreAux
  rw [if_neg ha, if_neg hb, if_neg hb2, if_pos hb3]
  show (if isContByte b2 then [] else decodeIgnoreAux f [b2]) = _
  rw [if_pos hc2]

theorem decode_tail4_three {b1 b2 b3 : Nat} (h1 : 240 ≤ b1) (h2 : b1 < 248)
    (hc2 : isContByte b2 = true) (hc3 : isContByte b3 = true) (f : Nat) :
    decodeIgnoreAux (f + 1) [b1, b2, b3] = [] := by
  have ha : ¬ b1 < 128 := by omega
  have hb : ¬ (192 ≤ b1 && b1 < 224) = true := by
    simp only [Bool.and_eq_true, decide_eq_true_eq]
    omega
  have hb2 : ¬ (224 ≤ b1 && b1 < 240) = true := by
    simp only [Bool.and_eq_true, decide_eq_true_eq]
    omega
  have hb3 : (240 ≤ b1 && b1 < 248) = true := by
    simp only [Bool.and_eq_true, decide_eq_true_eq]
    exact ⟨h1, h2⟩
  conv_lhs => unfold decodeIgnoreAux
  rw [if_neg ha, if_neg hb, if_neg hb2, if_pos hb3]
  show (if isContByte b2 && isContByte b3 then []
    else if !(isContByte b2) then decodeIgnoreAux f [b2, b3]
    else decodeIgnoreAux f [b3]) = _
  rw [if_pos (by rw [hc2, hc3]; rfl)]

theorem char_toNat_lt (c : Char) : c.toNat < 1114112 := by
  rcases Char.valid c with h | ⟨h1, h2⟩
  · exact Nat.lt_trans h (by decide)
  · exact h2

theorem decode_take_encode (cs : List Char) :
    ∀ mb fuel, ((encodeL cs).take mb).length ≤ fuel →
      decodeIgnoreAux fuel ((encodeL cs).take mb) = utf8Fit cs mb := by
  induction cs with
  | nil =>
    intro mb fuel _
    show decodeIgnoreAux fuel (List.take mb []) = []
    rw [List.take_nil, decode_nil]
  | cons c rest ih =>
    intro mb fuel h
    by_cases h1 : c.toNat < 128
    · have he : encodeChar c = [c.toNat] := by
        unfold encodeChar
        rw [if_pos h1]
      have heL : encodeL (c :: rest) = c.toNat :: encodeL rest := by
        show encodeChar c ++ encodeL rest = _
        rw [he]
        rfl
      have hk : (encodeChar c).length = 1 := by rw [he]; rfl
      rw [heL] at h ⊢
      rw [show utf8Fit (c :: rest) mb = if (encodeChar c).length ≤ mb then
          c :: utf8Fit rest (mb - (encodeChar c).length) else [] from rfl, hk]
      rcases mb with _ | m
      · rw [List.take_zero, decode_nil, if_neg (by omega)]
      · rw [List.take_succ_cons] at h ⊢
        rcases fuel with _ | f
        · exfalso
          rw [List.length_cons] at h
          omega
        · rw [decode_step1 h1 f ((encodeL rest).take m), Char.ofNat_toNat,
            ih m f (by rw [List.length_cons] at h; omega), if_pos (by omega)]
          exact congrArg (fun k => c :: utf8Fit rest k) (by omega)
    · by_cases h2 : c.toNat < 2048
      · have he : encodeChar c = [192 + c.toNat / 64, 128 + c.toNat % 64] := by
          unfold encodeChar
          rw [if_neg h1, if_pos h2]
        have heL : encodeL (c :: rest) =
            (192 + c.toNat / 64) :: (128 + c.toNat % 64) :: encodeL rest := by
          show encodeChar c ++ encodeL rest = _
          rw [he]
          rfl
        have hk : (encodeChar c).length = 2 := by rw [he]; rfl
        rw [heL] at h ⊢
        rw [show utf8Fit (c :: rest) mb = if (encodeChar c).length ≤ mb then
            c :: utf8Fit rest (mb - (encodeChar c).length) else [] from rfl, hk]
        rcases mb with _ | _ | m
        · rw [List.take_zero, decode_nil, if_neg (by omega)]
        · rw [List.take_succ_cons, List.take_zero] at h ⊢
          rcases fuel with _ | f
          · exfalso
            rw [List.length_cons] at h
            omega
          · rw [decode_tail2 (by omega) (by omega) f, if_neg (by omega)]
        · rw [List.take_succ_cons, List.take_succ_cons] at h ⊢
          rcases fuel with _ | f
          · exfalso
            rw [List.length_cons, List.length_cons] at h
            omega
          · rw [decode_step2 (by omega) (by omega)
              (by simp only [isContByte, Bool.and_eq_true, decide_eq_true_eq]; omega)
              f ((encodeL rest).take m),
              show (192 + c.toNat / 64 - 192) * 64 + (128 + c.toNat % 64 - 128) =
                c.toNat from by omega,
              Char.ofNat_toNat,
              ih m f (by rw [List.length_cons, List.length_cons] at h; omega),
              if_pos (by omega)]
            exact congrArg (fun k => c :: utf8Fit rest k) (by omega)
      · by_cases h3 : c.toNat < 65536
        · have he : encodeChar c =
              [224 + c.toNat / 4096, 128 + (c.toNat / 64) % 64, 128 + c.toNat % 64] := by
            unfold encodeChar
            rw [if_neg h1, if_neg h2, if_pos h3]
          have heL : encodeL (c :: rest) = (224 + c.toNat / 4096) ::
              (128 + (c.toNat / 64) % 64) :: (128 + c.toNat % 64) :: encodeL rest := by
            show encodeChar c ++ encodeL rest = _
            rw [he]
            rfl
          have hk : (encodeChar c).length = 3 := by rw [he]; rfl
          rw [heL] at h ⊢
          rw [show utf8Fit (c :: rest) mb = if (encodeChar c).length ≤ mb then
              c :: utf8Fit rest (mb - (encodeChar c).length) else [] from rfl, hk]
          rcases mb with _ | _ | _ | m
          · rw [List.take_zero, decode_nil, if_neg (by omega)]
          · rw [List.take_succ_cons, List.take_zero] at h ⊢
            rcases fuel with _ | f
            · exfalso
              rw [List.length_cons] at h
              omega
            · rw [decode_tail3_one (by omega) (by omega) f, if_neg (by omega)]
          · rw [List.take_succ_cons, List.take_succ_cons, List.take_zero] at h ⊢
            rcases fuel with _ | f
            · exfalso
              rw [List.length_cons, List.length_cons] at h
              omega
            · rw [decode_tail3_two (by omega) (by omega)
                (by simp only [isContByte, Bool.and_eq_true, decide_eq_true_eq]; omega) f,
                if_neg (by omega)]
          · rw [List.take_succ_cons, List.take_succ_cons, List.take_succ_cons] at h ⊢
            rcases fuel with _ | f
            · exfalso
              rw [List.length_cons, List.length_cons, List.length_cons] at h
              omega
            · rw [decode_step3 (by omega) (by omega)
                (by simp only [isContByte, Bool.and_eq_true, decide_eq_true_eq]; omega)
                (by simp only [isContByte, Bool.and_eq_true, decide_eq_true_eq]; omega)
                f ((encodeL rest).take m),
                show (224 + c.toNat / 4096 - 224) * 4096 +
                    (128 + (c.toNat / 64) % 64 - 128) * 64 +
                    (128 + c.toNat % 64 - 128) = c.toNat from by omega,
                Char.ofNat_toNat,
                ih m f (by
                  rw [List.length_cons, List.length_cons, List.length_cons] at h
                  omega),
                if_pos (by omega)]
              exact congrArg (fun k => c :: utf8Fit rest k) (by omega)
        · have hup : c.toNat < 1114112 := char_toNat_lt c
          have he : encodeChar c = [240 + c.toNat / 262144, 128 + (c.toNat / 4096) % 64,
              128 + (c.toNat / 64) % 64, 128 + c.toNat % 64] := by
            unfold encodeChar
            rw [if_neg h1, if_neg h2, if_neg h3]
          have heL : encodeL (c :: rest) = (240 + c.toNat / 262144) ::
              (128 + (c.toNat / 4096) % 64) :: (128 + (c.toNat / 64) % 64) ::
              (128 + c.toNat % 64) :: encodeL rest := by
            show encodeChar c ++ encodeL rest = _
            rw [he]
            rfl
          have hk : (encodeChar c).length = 4 := by rw [he]; rfl
          rw [heL] at h ⊢
          rw [show utf8Fit (c :: rest) mb = if (encodeChar c).length ≤ mb then
              c :: utf8Fit rest (mb - (encodeChar c).length) else [] from rfl, hk]
          rcases mb with _ | _ | _ | _ | m
          · rw [List.take_zero, decode_nil, if_neg (by omega)]
          · rw [List.take_succ_cons, List.take_zero] at h ⊢
            rcases fuel with _ | f
            · exfalso
              rw [List.length_cons] at h
              omega
            · rw [decode_tail4_one (by omega) (by omega) f, if_neg (by omega)]
          · rw [List.take_succ_cons, List.take_succ_cons, List.take_zero] at h ⊢
            rcases fuel with _ | f
            · exfalso
              rw [List.length_cons, List.length_cons] at h
              omega
            · rw [decode_tail4_two (by omega) (by omega)
                (by simp only [isContByte, Bool.and_eq_true, decide_eq_true_eq]; omega) f,
                if_neg (by omega)]
          · rw [List.take_succ_cons, List.take_succ_cons, List.take_succ_cons,
              List.take_zero] at h ⊢
            rcases fuel with _ | f
            · exfalso
              rw [List.length_cons, List.length_cons, List.length_cons] at h
              omega
            · rw [decode_tail4_three (by omega) (by omega)
                (by simp only [isContByte, Bool.and_eq_true, decide_eq_true_eq]; omega)
                (by simp only [isContByte, Bool.and_eq_true, decide_eq_true_eq]; omega) f,
                if_neg (by omega)]
          · rw [List.take_succ_cons, List.take_succ_cons, List.take_succ_cons,
              List.take_succ_cons] at h ⊢
            rcases fuel with _ | f
            · exfalso
              rw [List.length_cons, List.length_cons, List.length_cons,
                List.length_cons] at h
              omega
            · rw [decode_step4 (by omega) (by omega)
                (by simp only [isContByte, Bool.and_eq_true, decide_eq_true_eq]; omega)
                (by simp only [isContByte, Bool.and_eq_true, decide_eq_true_eq]; omega)
                (by simp only [isContByte, Bool.and_eq_true, decide_eq_true_eq]; omega)
                f ((encodeL rest).take m),
                show (240 + c.toNat / 262144 - 240) * 262144 +
                    (128 + (c.toNat / 4096) % 64 - 128) * 4096 +
                    (128 + (c.toNat / 64) % 64 - 128) * 64 +
                    (128 + c.toNat % 64 - 128) = c.toNat from by omega,
                Char.ofNat_toNat,
                ih m f (by
                  rw [List.length_cons, List.length_cons, List.length_cons,
                    List.length_cons] at h
                  omega),
                if_pos (by omega)]
              exact congrArg (fun k => c :: utf8Fit rest k) (by omega)

theorem encodeL_utf8Fit_le (cs : List Char) :
    ∀ mb, (encodeL (utf8Fit cs mb)).length ≤ mb := by
  induction cs with
  | nil =>
    intro mb
    show (encodeL []).length ≤ mb
    simp [encodeL]
  | cons c rest ih =>
    intro mb
    unfold utf8Fit
    by_cases h : (encodeChar c).length ≤ mb
    · rw [if_pos h]
      show (encodeChar c ++ encodeL (utf8Fit rest (mb - (encodeChar c).length))).length ≤ mb
      rw [List.length_append]
      have h2 := ih (mb - (encodeChar c).length)
      omega
    · rw [if_neg h]
      show (encodeL []).length ≤ mb
      simp [encodeL]

/-! ### Claim theorems -/

/-- C1: the configuration module and its consumers disagree on the schema.
`core/config.py` defines `Config` with fields `scope_mode` (validated by
`load_config` against `{prompt, auto, fixed}`) and `auto_commit`, and binds
no `DefaultAction` or `ScopeStrategy` names; `commands/init.py` imports
`DefaultAction` and `ScopeStrategy` from `core.config`, so importing the init
command fails with `ImportError` on every invocation; and `_draft_command`
reads `config.scope_strategy` (its second configuration-attribute access,
before any provider invocation), which no successfully loaded `Config`
provides, so it raises `AttributeError` before any generation occurs. -/
theorem c1_config_schema_mismatch :
    ("DefaultAction" ∈ init_config_imports ∧ "ScopeStrategy" ∈ init_config_imports) ∧
    ("DefaultAction" ∉ config_module_names ∧ "ScopeStrategy" ∉ config_module_names) ∧
    init_import_ok = false ∧
    ("auto_commit" ∈ config_field_names ∧ "scope_mode" ∈ config_field_names ∧
      "default_action" ∉ config_field_names ∧ "scope_strategy" ∉ config_field_names) ∧
    (load_config (toml_doc_code_schema "prompt") =
        Except.ok ⟨"en", "ollama", "llama3.1:8b", false, "conventional", "prompt", 200000, "vim"⟩ ∧
      load_config (toml_doc_code_schema "auto") =
        Except.ok ⟨"en", "ollama", "llama3.1:8b", false, "conventional", "auto", 200000, "vim"⟩ ∧
      load_config (toml_doc_code_schema "fixed") =
        Except.ok ⟨"en", "ollama", "llama3.1:8b", false, "conventional", "fixed", 200000, "vim"⟩ ∧
      load_config (toml_doc_code_schema "omit") = Except.error "Unsupported scope_mode: omit") ∧
    List.find? (fun a => !(config_field_names.contains a)) draft_pre_generation_config_reads =
      some "scope_strategy" := by
  decide

/-- C2: the spec says configuration load validates the eight §3 fields, the
scope strategy against `{auto, omit}` and the default review action against
`{edit, commit}`, succeeding exactly when all are present and in-domain.
The code contradicts this (and its own wizard): `load_config` requires
`auto_commit`/`scope_mode ∈ {prompt, auto, fixed}` instead, so the §3-valid
document fails with `ValueError: auto_commit must be a boolean.`, while a
document with `scope_mode = "prompt"` — outside the spec's `{auto, omit}` —
loads successfully. -/
theorem c2_load_config_rejects_spec_schema :
    load_config spec_schema_doc = Except.error "auto_commit must be a boolean." ∧
    load_config (toml_doc_code_schema "prompt") =
      Except.ok ⟨"en", "ollama", "llama3.1:8b", false, "conventional", "prompt", 200000, "vim"⟩ := by
  decide

/-- C3 counterexample: after an Edit whose post-edit content
`"thinking hard"` is not empty or whitespace-only, the session is not
cancelled, yet the candidate shown at the next preview — the sanitizer's
output on the edited text — is the empty string: the review loop proceeds to
preview a whitespace-only candidate, contradicting the claimed invariant. -/
theorem c3_empty_preview_after_edit :
    review_loop "Fix bug" [ReviewAction.edit "thinking hard"] =
      (["Fix bug", ""], ReviewOutcome.awaiting "") ∧
    pyStrip "thinking hard" = "thinking hard" ∧
    clean_model_output "thinking hard" = "" := by
  decide

/-- C4 counterexample: the sanitizer is not idempotent.  On
`"Thinking...\ndone thinking\nthinking of you"` one application yields
`"thinking of you"`, whose own first line starts with "thinking", so a second
application discards everything: `clean (clean x) = "" ≠ clean x`. -/
theorem c4_not_idempotent :
    clean_model_output "Thinking...\ndone thinking\nthinking of you" = "thinking of you" ∧
    clean_model_output (clean_model_output "Thinking...\ndone thinking\nthinking of you") = "" ∧
    ("thinking of you" : String) ≠ "" := by
  decide

/-- C5 counterexample: cancelling the action selection exits with code 1,
the same exit code as the hard failures "no staged changes" and "empty
generation result" — user cancellation is not distinguished by its own exit
code from hard failures. -/
theorem c5_cancel_code_equals_failure_code :
    draft_command ⟨true, false, none, none, [], true⟩ = DraftResult.exit 1 ∧
    draft_command ⟨true, true, some cfg_example, some "Fix: x", [ReviewAction.cancel], true⟩ =
      DraftResult.exit 1 ∧
    draft_command ⟨true, true, some cfg_example, some "   ", [], true⟩ = DraftResult.exit 1 := by
  decide

/-- C7 counterexample: for the whitespace-only input `"   "`, `clean` returns
the empty string, not that input unchanged; and with no meta-commentary the
result is the trimmed input only up to line-break normalization
(`"a\r\nb"` becomes `"a\nb"`, while trimming alone leaves it unchanged). -/
theorem c7_blank_not_returned_unchanged :
    (clean_model_output "   " = "" ∧ ("   " : String) ≠ "") ∧
    (clean_model_output "a\r\nb" = "a\nb" ∧ pyStrip "a\r\nb" = "a\r\nb" ∧
      ("a\nb" : String) ≠ "a\r\nb") := by
  decide

/-- C3 amended: after an Edit action, either the session is cancelled — when
the post-edit content is empty or whitespace-only — or the candidate at the
next preview is the sanitizer's output on the edited text; that output may
itself be empty (see `c3_empty_preview_after_edit`), so the never-empty
preview guarantee holds only for the generation and regeneration paths,
which re-check emptiness after sanitizing. -/
theorem c3_session_invariant_amended (m rawEdit r : String) (acts : List ReviewAction) :
    (pyStrip rawEdit = "" →
      review_loop m (ReviewAction.edit rawEdit :: acts) = ([m], ReviewOutcome.exited 1 none)) ∧
    (pyStrip rawEdit ≠ "" →
      review_loop m (ReviewAction.edit rawEdit :: acts) =
        (m :: (review_loop (clean_model_output (pyStrip rawEdit)) acts).1,
          (review_loop (clean_model_output (pyStrip rawEdit)) acts).2)) ∧
    (pyStrip (clean_model_output r) = "" →
      review_loop m (ReviewAction.regen r :: acts) = ([m], ReviewOutcome.exited 1 none)) ∧
    (pyStrip (clean_model_output r) ≠ "" →
      review_loop m (ReviewAction.regen r :: acts) =
        (m :: (review_loop (clean_model_output r) acts).1,
          (review_loop (clean_model_output r) acts).2)) := by
  have h0 : pyStrip "" = "" := rfl
  refine ⟨fun h => ?_, fun h => ?_, fun h => ?_, fun h => ?_⟩
  · simp [review_loop, pyStrip_idem, h, h0]
  · simp [review_loop, pyStrip_idem, h]
  · simp [review_loop, h]
  · simp [review_loop, h]

/-- Witness for `c3_session_invariant_amended` at concrete inputs: a
whitespace-only edit cancels the session; a contentful edit previews the
sanitized edited text next. -/
theorem c3_session_invariant_amended_witness :
    review_loop "Fix bug" [ReviewAction.edit " "] = (["Fix bug"], ReviewOutcome.exited 1 none) ∧
    review_loop "Fix bug" [ReviewAction.edit "Better message"] =
      ("Fix bug" :: (review_loop (clean_model_output (pyStrip "Better message")) []).1,
        (review_loop (clean_model_output (pyStrip "Better message")) []).2) :=
  ⟨(c3_session_invariant_amended "Fix bug" " " "r" []).1 (by decide),
   (c3_session_invariant_amended "Fix bug" "Better message" "r" []).2.1 (by decide)⟩

/-- C5 amended: every failure path of a draft session returns a non-zero
exit code, but user cancellation at the action selection exits with code 1,
the *same* code as the hard failures (no staged changes, empty generation
result); only `GitError` (exit 2) and `KeyboardInterrupt` (exit 130) are
mapped to distinct codes.  Exit code 0 implies the preflight checks passed. -/
theorem c5_exit_codes_amended (cfg : DraftConfig) (g : String) (acts : List ReviewAction)
    (c0 : Option DraftConfig) (g0 : Option String) (a0 : List ReviewAction) (ok0 ok1 : Bool) :
    draft_command ⟨true, false, c0, g0, a0, ok0⟩ = DraftResult.exit 1 ∧
    (pyStrip (clean_model_output g) = "" →
      draft_command ⟨true, true, some cfg, some g, acts, ok1⟩ = DraftResult.exit 1) ∧
    (pyStrip (clean_model_output g) ≠ "" →
      draft_command ⟨true, true, some cfg, some g, ReviewAction.cancel :: acts, ok1⟩ =
        DraftResult.exit 1) ∧
    (∀ env : DraftEnv, draft_command env = DraftResult.exit 0 →
      env.is_repo = true ∧ env.has_staged = true ∧ env.config.isSome = true) := by
  refine ⟨?_, fun h => ?_, fun h => ?_, ?_⟩
  · simp [draft_command]
  · simp [draft_command, h]
  · simp [draft_command, review_loop, h]
  · intro env henv
    obtain ⟨ir, hst, cf, gn, ac, ok⟩ := env
    cases ir
    · simp [draft_command] at henv
    · cases hst
      · simp [draft_command] at henv
      · cases cf
        · simp [draft_command] at henv
        · simp

/-- Witness for `c5_exit_codes_amended`: the cancel path and the no-staged
path both exit with code 1. -/
theorem c5_exit_codes_amended_witness :
    draft_command ⟨true, false, none, none, [], true⟩ = DraftResult.exit 1 ∧
    draft_command ⟨true, true, some cfg_example, some "Fix: y", [ReviewAction.cancel], true⟩ =
      DraftResult.exit 1 :=
  ⟨(c5_exit_codes_amended cfg_example "Fix: y" [] none none [] true true).1,
   (c5_exit_codes_amended cfg_example "Fix: y" [] none none [] true true).2.2.1 (by decide)⟩

/-- C8: `build_commit_message_prompt` fails with the `InvalidInput` condition
exactly when the diff is empty or whitespace-only (in particular for `""` and
`"   \n  "`), fails with an `UnsupportedOption` condition when `language`,
`prompt_profile` or `scope_strategy` is outside its enumerated set, and
returns a `PromptParts` value for every non-empty diff with all three options
in their enumerated sets. -/
theorem c8_build_failure_conditions (d : String) (st : Option String) (msl : Nat)
    (l p s : String) :
    (build_commit_message_prompt d st msl l p s = Except.error PromptError.invalidInput ↔
      pyStrip d = "") ∧
    (pyStrip d ≠ "" → l ≠ "en" → l ≠ "ja" →
      build_commit_message_prompt d st msl l p s =
        Except.error (PromptError.unsupportedLanguage l)) ∧
    (pyStrip d ≠ "" → (l = "en" ∨ l = "ja") → p ≠ "default" → p ≠ "conventional" →
      build_commit_message_prompt d st msl l p s =
        Except.error (PromptError.unsupportedProfile p)) ∧
    (pyStrip d ≠ "" → (l = "en" ∨ l = "ja") → (p = "default" ∨ p = "conventional") →
      s ≠ "auto" → s ≠ "omit" →
      build_commit_message_prompt d st msl l p s =
        Except.error (PromptError.unsupportedScope s)) ∧
    (pyStrip d ≠ "" → (l = "en" ∨ l = "ja") → (p = "default" ∨ p = "conventional") →
      (s = "auto" ∨ s = "omit") →
      ∃ parts, build_commit_message_prompt d st msl l p s = Except.ok parts) ∧
    build_commit_message_prompt "" st msl l p s = Except.error PromptError.invalidInput ∧
    build_commit_message_prompt "   \n  " st msl l p s = Except.error PromptError.invalidInput := by
  refine ⟨?_, build_bad_language st msl p s, build_bad_profile st msl s,
    build_bad_scope st msl, build_ok st msl,
    build_empty_diff st msl l p s (by decide), build_empty_diff st msl l p s (by decide)⟩
  constructor
  · intro h
    by_contra hd
    by_cases hl : l = "en" ∨ l = "ja"
    · by_cases hp : p = "default" ∨ p = "conventional"
      · by_cases hs : s = "auto" ∨ s = "omit"
        · obtain ⟨parts, hok⟩ := build_ok st msl hd hl hp hs
          rw [hok] at h
          exact absurd h (by simp)
        · push_neg at hs
          rw [build_bad_scope st msl hd hl hp hs.1 hs.2] at h
          exact absurd h (by simp)
      · push_neg at hp
        rw [build_bad_profile st msl s hd hl hp.1 hp.2] at h
        exact absurd h (by simp)
    · push_neg at hl
      rw [build_bad_language st msl p s hd hl.1 hl.2] at h
      exact absurd h (by simp)
  · exact build_empty_diff st msl l p s

/-- Witness for `c8_build_failure_conditions`: a successful build for a
conventional/auto configuration, and the two spec scenarios for the empty
diff. -/
theorem c8_build_failure_conditions_witness :
    (∃ parts, build_commit_message_prompt "diff --git a b" (some "M x") 72 "en" "conventional"
        "auto" = Except.ok parts) ∧
    build_commit_message_prompt "" none 72 "en" "default" "omit" =
      Except.error PromptError.invalidInput ∧
    build_commit_message_prompt "   \n  " none 72 "en" "default" "omit" =
      Except.error PromptError.invalidInput :=
  ⟨(c8_build_failure_conditions "diff --git a b" (some "M x") 72 "en" "conventional"
      "auto").2.2.2.2.1 (by decide) (Or.inl rfl) (Or.inr rfl) (Or.inl rfl),
   (c8_build_failure_conditions "" none 72 "en" "default" "omit").1.mpr (by decide),
   (c8_build_failure_conditions "   \n  " none 72 "en" "default" "omit").2.2.2.2.2.2⟩

/-- C9: the prompt builder is deterministic and side-effect-free — it is a
pure function of its six arguments, so two calls with identical arguments
yield byte-identical `PromptParts`; the embedding contains no randomness and
no environment access, mirroring the source. -/
theorem c9_build_deterministic (d1 d2 : String) (st1 st2 : Option String)
    (msl1 msl2 : Nat) (l1 l2 p1 p2 s1 s2 : String)
    (hd : pyStrip d1 ≠ "") (hl : l1 = "en" ∨ l1 = "ja")
    (hp : p1 = "default" ∨ p1 = "conventional") (hs : s1 = "auto" ∨ s1 = "omit")
    (e1 : d1 = d2) (e2 : st1 = st2) (e3 : msl1 = msl2) (e4 : l1 = l2)
    (e5 : p1 = p2) (e6 : s1 = s2) :
    build_commit_message_prompt d1 st1 msl1 l1 p1 s1 =
      build_commit_message_prompt d2 st2 msl2 l2 p2 s2 := by
  subst e1; subst e2; subst e3; subst e4; subst e5; subst e6; rfl

/-- Witness for `c9_build_deterministic` at a concrete valid argument list. -/
theorem c9_build_deterministic_witness :
    build_commit_message_prompt "diff --git a b" none 72 "en" "default" "omit" =
      build_commit_message_prompt "diff --git a b" none 72 "en" "default" "omit" :=
  c9_build_deterministic "diff --git a b" "diff --git a b" none none 72 72 "en" "en"
    "default" "default" "omit" "omit" (by decide) (Or.inl rfl) (Or.inl rfl) (Or.inr rfl)
    rfl rfl rfl rfl rfl rfl

/-- C4 amended: the sanitizer is idempotent on every input whose cleaned
output does not itself begin with a line that, trimmed and lowercased, starts
with "thinking": under that condition `clean (clean x) = clean x`.
Unrestricted idempotence is refuted by `c4_not_idempotent`. -/
theorem c4_idempotent_amended (x : String)
    (h : headThinkingL (clean_model_output x).data = false) :
    clean_model_output (clean_model_output x) = clean_model_output x :=
  congrArg String.mk (cleanL_idem_of_not_thinking x.data h)

/-- Witness for `c4_idempotent_amended` at `"Fix bug in parser"`. -/
theorem c4_idempotent_amended_witness :
    clean_model_output (clean_model_output "Fix bug in parser") =
      clean_model_output "Fix bug in parser" :=
  c4_idempotent_amended "Fix bug in parser" (by decide)

/-- C6: for every input whose first line, trimmed and lowercased, starts
with "thinking", the sanitizer discards lines from the start up to and
including the first line containing "done thinking" (discarding all lines
when no such line exists), drops every remaining line whose trimmed,
lowercased content is a standalone meta-commentary marker, rejoins with
newlines and trims — the specification-side `cleanSpecC6`; and on
`"Thinking...\nfoo\ndone thinking\nHello world"` it yields `"Hello world"`. -/
theorem c6_thinking_block_removal :
    (∀ x : String, headThinkingL x.data = true →
      clean_model_output x = ⟨cleanSpecC6 x.data⟩) ∧
    clean_model_output "Thinking...\nfoo\ndone thinking\nHello world" = "Hello world" := by
  constructor
  · intro x h
    exact congrArg String.mk (cleanL_eq_spec_of_thinking x.data h)
  · decide

/-- Witness for `c6_thinking_block_removal` at the spec scenario input. -/
theorem c6_thinking_block_removal_witness :
    clean_model_output "Thinking...\nfoo\ndone thinking\nHello world" =
      ⟨cleanSpecC6 "Thinking...\nfoo\ndone thinking\nHello world".data⟩ :=
  c6_thinking_block_removal.1 "Thinking...\nfoo\ndone thinking\nHello world" (by decide)

/-- C7 amended: the sanitizer is a total function and, on input that is
empty after trimming, returns the empty string — the trimmed input, not the
original input unchanged; and when no meta-commentary is detected (`noMeta`)
it returns the trimmed input with line breaks normalized to `"\n"`, not the
trimmed input verbatim (both gaps witnessed by
`c7_blank_not_returned_unchanged`). -/
theorem c7_degradation_amended (x : String) :
    (pyStrip x = "" → clean_model_output x = "") ∧
    (noMeta x.data = true →
      clean_model_output x = ⟨stripL (joinL (splitlinesL x.data))⟩) := by
  constructor
  · intro h
    have h2 : stripL x.data = [] := congrArg String.data h
    exact congrArg String.mk (cleanL_eq_nil x.data h2)
  · intro hn
    have hn2 : headThinkingL (stripL x.data) = false ∧
        (splitlinesL (stripL x.data)).all keepLine = true := by
      have hx := hn
      unfold noMeta at hx
      rw [Bool.and_eq_true, Bool.not_eq_true'] at hx
      exact hx
    obtain ⟨h1, h2⟩ := hn2
    by_cases h0 : stripL x.data = []
    · show String.mk (cleanL x.data) = String.mk (stripL (joinL (splitlinesL x.data)))
      rw [cleanL_eq_nil x.data h0,
        strip_join_lines_of_ws x.data ((stripL_eq_nil_iff x.data).mp h0)]
    · show String.mk (cleanL x.data) = String.mk (stripL (joinL (splitlinesL x.data)))
      rw [cleanL_eq_no_thinking x.data h0 h1,
        List.filter_eq_self.mpr (fun l hl => List.all_eq_true.mp h2 l hl),
        strip_join_split_strip]

/-- Witness for `c7_degradation_amended` on a blank input and on a clean
two-line message. -/
theorem c7_degradation_amended_witness :
    clean_model_output "   " = "" ∧
    clean_model_output "Fix parser\nAdd tests" =
      ⟨stripL (joinL (splitlinesL "Fix parser\nAdd tests".data))⟩ :=
  ⟨(c7_degradation_amended "   ").1 (by decide),
   (c7_degradation_amended "Fix parser\nAdd tests").2 (by decide)⟩

/-- C10: with the diff text assembled from the patch and the optional stats
prefix, when its UTF-8 encoding exceeds `max_bytes` the byte cap of
`get_staged_diff` keeps exactly the first `max_bytes` bytes, decodes them
leniently — yielding the longest character prefix whose encoding fits, the
incomplete trailing character dropped (`utf8Fit`, whose encoded length stays
within the cap) — and appends the truncation marker; when the encoding is
within the limit the text is returned unmodified. -/
theorem c10_diff_truncation (patch stats : String) (include_stats : Bool) (mb : Nat) :
    (mb < (encodeL (assemble_diff_text patch stats include_stats).data).length →
      get_staged_diff patch stats include_stats (some mb) =
        String.mk (utf8Fit (assemble_diff_text patch stats include_stats).data mb) ++
          truncation_marker ∧
      (encodeL (utf8Fit (assemble_diff_text patch stats include_stats).data mb)).length
        ≤ mb) ∧
    ((encodeL (assemble_diff_text patch stats include_stats).data).length ≤ mb →
      get_staged_diff patch stats include_stats (some mb) =
        assemble_diff_text patch stats include_stats) := by
  constructor
  · intro h
    refine ⟨?_, encodeL_utf8Fit_le (assemble_diff_text patch stats include_stats).data mb⟩
    show (if (encodeL (assemble_diff_text patch stats include_stats).data).length > mb then
        String.mk (decodeIgnore
          ((encodeL (assemble_diff_text patch stats include_stats).data).take mb)) ++
          truncation_marker
      else assemble_diff_text patch stats include_stats) = _
    rw [if_pos h]
    have hdec : decodeIgnore
        ((encodeL (assemble_diff_text patch stats include_stats).data).take mb) =
        utf8Fit (assemble_diff_text patch stats include_stats).data mb :=
      decode_take_encode (assemble_diff_text patch stats include_stats).data mb
        ((encodeL (assemble_diff_text patch stats include_stats).data).take mb).length
        le_rfl
    rw [hdec]
  · intro h
    show (if (encodeL (assemble_diff_text patch stats include_stats).data).length > mb then
        String.mk (decodeIgnore
          ((encodeL (assemble_diff_text patch stats include_stats).data).take mb)) ++
          truncation_marker
      else assemble_diff_text patch stats include_stats) = _
    rw [if_neg (by omega)]

/-- Witness for `c10_diff_truncation`: `"abcdef"` capped at 3 bytes is
truncated and marked; `"abc"` capped at 10 bytes is unmodified. -/
theorem c10_diff_truncation_witness :
    (get_staged_diff "abcdef" "" false (some 3) =
      String.mk (utf8Fit "abcdef".data 3) ++ truncation_marker) ∧
    get_staged_diff "abc" "" false (some 10) = assemble_diff_text "abc" "" false :=
  ⟨((c10_diff_truncation "abcdef" "" false 3).1 (by decide)).1,
   (c10_diff_truncation "abc" "" false 10).2 (by decide)⟩

